import Mathlib

/-!
Verification of the config-V2 → config-V3 project upgrade pipeline
(`cli/internal/scripts/update-project-v3.go`).

The Go code is shallowly embedded: the filesystem (`afero.Fs`) becomes an
explicit entry list with last-write-wins lookup, the backend state stores
become explicit record lists, fallible collaborators are driven by explicit
fault flags, and the pipeline is a pure function from an input bundle to a
final world, an event trace, and an optional error.
-/

set_option autoImplicit false

namespace UpdateV3

/-! ## Paths and filesystem nodes -/

/-- A filesystem path, as a list of components (`filepath.Join parent name`
becomes `parent ++ [name]`). -/
abbrev Path := List String

/-- A node in the project tree: a directory, or a file with byte content. -/
inductive FsNode where
  | dir : FsNode
  | file : List Nat → FsNode
deriving DecidableEq, Repr

def FsNode.isDir : FsNode → Bool
  | .dir => true
  | .file _ => false

/-- `underDir root p` holds when `root` is a component-wise prefix of `p`
(including `p = root`): `p` lies in the subtree rooted at `root`. -/
def underDir : Path → Path → Bool
  | [], _ => true
  | _ :: _, [] => false
  | a :: as, b :: bs => a == b && underDir as bs

/-- The filesystem: a list of `(path, node)` entries.  Later entries shadow
earlier ones (last write wins), so writes are appends. -/
structure Fs where
  entries : List (Path × FsNode)
deriving DecidableEq, Repr

/-- Last-write-wins lookup in an entry list. -/
def statE : List (Path × FsNode) → Path → Option FsNode
  | [], _ => none
  | e :: l, q =>
    match statE l q with
    | some n => some n
    | none => if e.1 = q then some e.2 else none

/-- `fs.Stat p` of the afero filesystem. -/
def Fs.stat (fs : Fs) (p : Path) : Option FsNode :=
  statE fs.entries p

/-- The name of `p` when `p` is an immediate child of `parent`. -/
def childName (parent : Path) (p : Path) : Option String :=
  if underDir parent p then
    match p.drop parent.length with
    | [n] => some n
    | _ => none
  else none

/-- Names of the immediate children of `p` (each once). -/
def Fs.childNames (fs : Fs) (p : Path) : List String :=
  (fs.entries.filterMap (fun e => childName p e.1)).dedup

/-! Directory listings are returned sorted by name, as `afero.ReadDir` sorts
its result.  We carry our own executable string order and insertion sort. -/

def charListLe : List Char → List Char → Bool
  | [], _ => true
  | _ :: _, [] => false
  | a :: as, b :: bs =>
    if a.toNat < b.toNat then true
    else if b.toNat < a.toNat then false
    else charListLe as bs

def strLe (a b : String) : Bool := charListLe a.data b.data

def insertName (x : String) : List String → List String
  | [] => [x]
  | y :: ys => if strLe x y then x :: y :: ys else y :: insertName x ys

def sortNames : List String → List String
  | [] => []
  | x :: xs => insertName x (sortNames xs)

/-- `afero.ReadDir`: fails unless `p` is a directory; returns the immediate
children, sorted by name, each with its directory bit. -/
def Fs.readDir (fs : Fs) (p : Path) : Option (List (String × Bool)) :=
  match fs.stat p with
  | some .dir =>
    some ((sortNames (fs.childNames p)).map
      (fun n => (n, (((fs.stat (p ++ [n])).map FsNode.isDir).getD false))))
  | _ => none

/-- Append-only write of one entry (overwrites by shadowing). -/
def Fs.set (fs : Fs) (p : Path) (n : FsNode) : Fs :=
  ⟨fs.entries ++ [(p, n)]⟩

/-- `fs.RemoveAll p`: drops the whole subtree rooted at `p`; succeeds (and is
a no-op) when `p` does not exist. -/
def Fs.removeAll (fs : Fs) (p : Path) : Fs :=
  ⟨fs.entries.filter (fun e => !(underDir p e.1))⟩

/-- `fs.Mkdir p 0755`: fails when `p` already exists, when `p` is the root,
or when the parent of `p` is not an existing directory. -/
def Fs.mkdir (fs : Fs) (p : Path) : Option Fs :=
  if (fs.stat p).isSome then none
  else if p = [] then none
  else
    match fs.stat p.dropLast with
    | some .dir => some ⟨fs.entries ++ [(p, .dir)]⟩
    | _ => none

/-- The entries of the subtree of `src`, re-rooted at `dst`
(the write set of `util.CopyDirAfero fs src dst`). -/
def copyTree (fs : Fs) (src dst : Path) : List (Path × FsNode) :=
  fs.entries.filterMap (fun e =>
    if underDir src e.1 then some (dst ++ e.1.drop src.length, e.2) else none)

/-- `util.CopyDirAfero fs src dst`: recursively copies the subtree at `src`
over to `dst`. -/
def Fs.copyDir (fs : Fs) (src dst : Path) : Fs :=
  ⟨fs.entries ++ copyTree fs src dst⟩

/-- `util.CopyFileAfero fs src dst`: fails unless `src` is a file. -/
def Fs.copyFile (fs : Fs) (src dst : Path) : Option Fs :=
  match fs.stat src with
  | some (.file c) => some ⟨fs.entries ++ [(dst, .file c)]⟩
  | _ => none

/-! ## Fault injection for filesystem collaborators -/

/-- Injectable failures of the filesystem collaborator, keyed by the path an
operation is invoked on. -/
structure FsFaults where
  statFail : Path → Bool
  readDirFail : Path → Bool
  mkdirFail : Path → Bool
  copyFail : Path → Bool
  removeFail : Path → Bool

def noFsFaults : FsFaults :=
  ⟨fun _ => false, fun _ => false, fun _ => false, fun _ => false, fun _ => false⟩

/-! ## The migration-name convention -/

/-- `isHasuraCLIGeneratedMigration`: Go's
`regexp.MatchString`  with pattern  13 digits, an underscore, then `(.*)$`
applied to `filepath.Base dirPath` (directory-listing names contain no
separator, so `Base` is the identity here).  In Go's default regexp syntax
`.` does not match a newline and `$` anchors at end of text, so the suffix
must be newline-free. -/
def isHasuraCLIGeneratedMigration (dirPath : String) : Bool :=
  let cs := dirPath.data
  decide (13 < cs.length) &&
  (cs.take 13).all (fun c => c.isDigit) &&
  ((cs.drop 13).headD ' ' == '_') &&
  (cs.drop 14).all (fun c => c != '\n')

/-! ## Backend state: hdb tables and the catalog state -/

/-- One applied change-history record: timestamp and dirty flag. -/
structure MigRecord where
  version : Nat
  dirty : Bool
deriving DecidableEq, Repr

/-- The table-backed store read by the transplant: the migration records and
settings rows of the source database. -/
structure HdbTable where
  migrations : List MigRecord
  settings : List (String × String)
deriving DecidableEq, Repr

/-- The backend-owned catalog state blob: migration records keyed by database
name, settings, and the one-way completion latch. -/
structure CatalogState where
  migrations : List (String × List MigRecord)
  settings : List (String × String)
  isStateCopyCompleted : Bool
deriving DecidableEq, Repr

/-- The migration records the catalog currently holds under `name`. -/
def migrationsFor (cat : CatalogState) (name : String) : List MigRecord :=
  ((cat.migrations.find? (fun e => e.1 == name)).map (fun e => e.2)).getD []

/-- Store the record list under `name`, replacing any existing entry. -/
def setMigrationsFor (cat : CatalogState) (name : String) (recs : List MigRecord) :
    CatalogState :=
  if (cat.migrations.find? (fun e => e.1 == name)).isSome then
    { cat with migrations :=
        cat.migrations.map (fun e => if e.1 == name then (name, recs) else e) }
  else
    { cat with migrations := cat.migrations ++ [(name, recs)] }

/-- Key-wise set into a settings list: replace an existing key, else append. -/
def upsertSetting (l : List (String × String)) (k v : String) :
    List (String × String) :=
  if (l.find? (fun e => e.1 == k)).isSome then
    l.map (fun e => if e.1 == k then (k, v) else e)
  else l ++ [(k, v)]

/-- Modelled from the spec: `statestore.CopyMigrationState` is not under
`src/` (only its caller `CopyState` is).  Per the spec: "Copy every migration
record for `source` into `dest`, preserving timestamp and dirty flag,
associated with the new name — this is a rename, not a merge: if `dest`
already holds records under that name, fail with `DuplicateStateConflict` and
modify nothing." -/
def CopyMigrationState (src : HdbTable) (cat : CatalogState)
    (_sourceName destName : String) : CatalogState × Option String :=
  if migrationsFor cat destName ≠ [] then
    (cat, some "DuplicateStateConflict")
  else
    (setMigrationsFor cat destName src.migrations, none)

/-- Modelled from the spec: `statestore.CopySettingsState` is not under
`src/` (only its caller `CopyState` is).  Per the spec it copies every
settings record of the source store into the catalog store (get/set of
settings, whole-state read-modify-write). -/
def CopySettingsState (srcSettings : List (String × String))
    (cat : CatalogState) : CatalogState :=
  { cat with settings :=
      srcSettings.foldl (fun acc kv => upsertSetting acc kv.1 kv.2) cat.settings }

/-- Injectable failures of the backend state-store collaborators, in the
order `CopyState` exercises them. -/
structure StoreFaults where
  srcMigPrepareFail : Bool
  dstMigPrepareFail : Bool
  migStateFail : Bool
  srcSettingsPrepareFail : Bool
  dstSettingsPrepareFail : Bool
  settingsStateFail : Bool
  catalogGetFail : Bool
  catalogSetFail : Bool
deriving DecidableEq, Repr

def noStoreFaults : StoreFaults :=
  ⟨false, false, false, false, false, false, false, false⟩

/-- `CopyState(ec, sourceDatabase, destDatabase)` (source lines 288–324):
prepare the hdb-table migration store, prepare the catalog migration store,
copy the migration state, prepare both settings drivers, copy the settings
state, then fetch the catalog state, set `IsStateCopyCompleted = true` and
write it back.  Returns the catalog as left behind (partial on failure)
and the error, if any. -/
def CopyState (sf : StoreFaults) (tbl : HdbTable) (cat : CatalogState)
    (sourceDatabase destDatabase : String) : CatalogState × Option String :=
  if sf.srcMigPrepareFail then
    (cat, some "StoreUnavailable: preparing hdb_table migrations state store")
  else if sf.dstMigPrepareFail then
    (cat, some "StoreUnavailable: preparing catalog migrations state store")
  else if sf.migStateFail then
    (cat, some "StoreIOError: copying migration state")
  else
    match CopyMigrationState tbl cat sourceDatabase destDatabase with
    | (cat1, some e) => (cat1, some e)
    | (cat1, none) =>
      if sf.srcSettingsPrepareFail then
        (cat1, some "StoreUnavailable: preparing source settings driver")
      else if sf.dstSettingsPrepareFail then
        (cat1, some "StoreUnavailable: preparing catalog settings driver")
      else if sf.settingsStateFail then
        (cat1, some "StoreIOError: copying settings state")
      else
        let cat2 := CopySettingsState tbl.settings cat1
        if sf.catalogGetFail then
          (cat2, some "error while fetching catalog state")
        else if sf.catalogSetFail then
          (cat2, some "cannot set catalog state")
        else
          ({ cat2 with isStateCopyCompleted := true }, none)

/-! ## Events, world state, outcomes -/

/-- Observable events of a pipeline run, in order of occurrence. -/
inductive Ev where
  | prompted
  | copiedState (src dst : String)
  | madeDir (p : Path)
  | mkdirFailed (p : Path)
  | copied (src dst : Path)
  | copyFailed (p : Path)
  | wroteConfig (v : Nat)
  | removed (p : Path)
  | wroteMetadataFile (p : Path)
deriving DecidableEq, Repr

/-- Config version constants of the `cli` package. -/
def V1 : Nat := 1

def V2 : Nat := 2

def V3 : Nat := 3

/-- The mutable state the pipeline acts on: the project tree, the backend
catalog state, and the persisted config version marker. -/
structure World where
  fs : Fs
  catalog : CatalogState
  configVersion : Nat
deriving DecidableEq, Repr

/-- Result of a run: the world left behind (partial on failure), the event
trace, and the error, if any. -/
structure Outcome where
  world : World
  trace : List Ev
  err : Option String
deriving DecidableEq, Repr

/-! ## The pipeline's collaborators and options -/

/-- `UpdateProjectV3Opts` (minus the injected collaborators, which live in
`Env`/faults): project paths, target database, force and move-state-only
flags. -/
structure UpdateProjectV3Opts where
  migrationsAbsDirectoryPath : Path
  seedsAbsDirectoryPath : Path
  metadataDir : Path
  targetDatabase : String
  force : Bool
  moveStateOnly : Bool

/-- The execution context and external collaborators: server capability,
metadata consistency probe, prompts, sources, config writer and the
metadata-resync client, each with its injectable failure. -/
structure Env where
  hasMetadataV3 : Bool
  inconsistentMetadataCheckFail : Bool
  metadataConsistent : Bool
  confirmFail : Bool
  confirmAnswer : String
  getSourcesFail : Bool
  sources : List String
  selectFail : Bool
  selectAnswer : String
  writeConfigFail : Bool
  exportMetadataFail : Bool
  exportedFiles : List (Path × List Nat)
  writeMetadataFail : Bool

/-! ## The phase functions (source lines 203–286) -/

/-- `removeDirectories fs parentDirectory dirNames` (lines 203–210):
`RemoveAll` each `parentDirectory/d`, aborting on the first failure. -/
def removeDirectories (ff : FsFaults) (fs : Fs) (parentDirectory : Path) :
    List String → Fs × List Ev × Option String
  | [] => (fs, [], none)
  | d :: rest =>
    let p := parentDirectory ++ [d]
    if ff.removeFail p then (fs, [], some "RemoveAll failed")
    else
      let r := removeDirectories ff (fs.removeAll p) parentDirectory rest
      (r.1, Ev.removed p :: r.2.1, r.2.2)

/-- `copyMigrations fs dirs parentDir target` (lines 212–231): for each name,
`Stat` the source — discarding any `Stat` error, so a failed `Stat` silently
skips the entry — then copy a directory recursively or a file singly into
`target/dir`, aborting on a copy failure. -/
def copyMigrations (ff : FsFaults) (fs : Fs) :
    List String → Path → Path → Fs × List Ev × Option String
  | [], _, _ => (fs, [], none)
  | dir :: rest, parentDir, target =>
    let srcPath := parentDir ++ [dir]
    let f : Option FsNode :=
      if ff.statFail srcPath then none else fs.stat srcPath
    match f with
    | none => copyMigrations ff fs rest parentDir target
    | some .dir =>
      if ff.copyFail srcPath then
        (fs, [Ev.copyFailed srcPath], some ("moving " ++ dir ++ " failed"))
      else
        let r := copyMigrations ff (fs.copyDir srcPath (target ++ [dir]))
          rest parentDir target
        (r.1, Ev.copied srcPath (target ++ [dir]) :: r.2.1, r.2.2)
    | some (.file c) =>
      if ff.copyFail srcPath then
        (fs, [Ev.copyFailed srcPath], some ("moving " ++ dir ++ " failed"))
      else
        let r := copyMigrations ff (fs.set (target ++ [dir]) (.file c))
          rest parentDir target
        (r.1, Ev.copied srcPath (target ++ [dir]) :: r.2.1, r.2.2)

/-- `copyFiles fs files parentDir target` (lines 233–241): copy each file,
aborting on the first failure (a missing or non-file source fails too). -/
def copyFiles (ff : FsFaults) (fs : Fs) :
    List String → Path → Path → Fs × List Ev × Option String
  | [], _, _ => (fs, [], none)
  | f :: rest, parentDir, target =>
    let srcPath := parentDir ++ [f]
    if ff.copyFail srcPath then
      (fs, [Ev.copyFailed srcPath], some ("moving " ++ f ++ " failed"))
    else
      match fs.copyFile srcPath (target ++ [f]) with
      | none => (fs, [Ev.copyFailed srcPath], some ("moving " ++ f ++ " failed"))
      | some fs1 =>
        let r := copyFiles ff fs1 rest parentDir target
        (r.1, Ev.copied srcPath (target ++ [f]) :: r.2.1, r.2.2)

/-- `getMatchingFilesAndDirs` (lines 263–281): list the directory and keep
the names accepted by the matcher. -/
def getMatchingFilesAndDirs (ff : FsFaults) (fs : Fs) (parentDir : Path)
    (matcher : String → Bool) : Option (List String) :=
  if ff.readDirFail parentDir then none
  else
    match fs.readDir parentDir with
    | none => none
    | some ds => some (((ds.map (fun e => e.1))).filter matcher)

/-- `getMigrationDirectoryNames` (lines 243–245). -/
def getMigrationDirectoryNames (ff : FsFaults) (fs : Fs)
    (rootMigrationsDir : Path) : Option (List String) :=
  getMatchingFilesAndDirs ff fs rootMigrationsDir isHasuraCLIGeneratedMigration

/-- `getSeedFiles` (lines 247–261): every non-directory immediate child. -/
def getSeedFiles (ff : FsFaults) (fs : Fs) (rootSeedDir : Path) :
    Option (List String) :=
  if ff.readDirFail rootSeedDir then none
  else
    match fs.readDir rootSeedDir with
    | none => none
    | some ds => some ((ds.filter (fun e => !e.2)).map (fun e => e.1))

/-- The two `Mkdir` calls of lines 136–146: the error of a failed `Mkdir` is
wrapped by `errors.Wrap` but never returned (the `return` is missing in the
source), so a failure is recorded and the pipeline continues. -/
def mkdirStep (ff : FsFaults) (fs : Fs) (p : Path) : Fs × List Ev :=
  if ff.mkdirFail p then (fs, [Ev.mkdirFailed p])
  else
    match fs.mkdir p with
    | none => (fs, [Ev.mkdirFailed p])
    | some fs1 => (fs1, [Ev.madeDir p])

/-! ## Target-database selection (lines 84–103) -/

/-- Lines 92–103: when no explicit `--database-name` was given, auto-select a
single source named `"default"`, prompt (once) when any source exists
otherwise, and fail when no source is connected. -/
def selectTargetDatabase (env : Env) (targetDatabase : String)
    (sources : List String) : List Ev × Except String String :=
  if targetDatabase.length = 0 then
    if sources.length = 1 && sources.headD "" == "default" then
      ([], .ok (sources.headD ""))
    else if sources.length > 0 then
      if env.selectFail then ([Ev.prompted], .error "select prompt failed")
      else ([Ev.prompted], .ok env.selectAnswer)
    else
      ([], .error "cannot determine name of database for which current migrations / seed belong to, found 0 connected databases on hasura")
  else ([], .ok targetDatabase)

/-! ## The directory reorganization and the tail of the pipeline -/

/-- The filesystem portion of lines 121–184 — the DirectoryReorganizer:
list matched migrations and seeds, create both target subdirectories, copy
matched migrations and seed files into them, then delete the originals and
the two legacy metadata files.  (In `UpdateProjectV3` the config write is
interleaved between the copies and the deletions; it does not touch the
tree.) -/
def Reorganize (ff : FsFaults) (fs : Fs)
    (migrationsRoot seedsRoot metadataDir : Path) (targetName : String) :
    Fs × List Ev × Option String :=
  match getMigrationDirectoryNames ff fs migrationsRoot with
  | none => (fs, [], some "getting list of migrations to move")
  | some migrationDirectoriesToMove =>
    match getSeedFiles ff fs seedsRoot with
    | none => (fs, [], some "getting list of seed files to move")
    | some seedFilesToMove =>
      let targetMigrationsDirectoryName := migrationsRoot ++ [targetName]
      let m1 := mkdirStep ff fs targetMigrationsDirectoryName
      let targetSeedsDirectoryName := seedsRoot ++ [targetName]
      let m2 := mkdirStep ff m1.1 targetSeedsDirectoryName
      match copyMigrations ff m2.1 migrationDirectoriesToMove
        migrationsRoot targetMigrationsDirectoryName with
      | (fs3, t3, some e) =>
        (fs3, m1.2 ++ m2.2 ++ t3,
          some ("moving migrations to target database directory: " ++ e))
      | (fs3, t3, none) =>
        match copyFiles ff fs3 seedFilesToMove
          seedsRoot targetSeedsDirectoryName with
        | (fs4, t4, some e) =>
          (fs4, m1.2 ++ m2.2 ++ t3 ++ t4,
            some ("moving seeds to target database directory: " ++ e))
        | (fs4, t4, none) =>
          match removeDirectories ff fs4 migrationsRoot
            migrationDirectoriesToMove with
          | (fs5, t5, some e) =>
            (fs5, m1.2 ++ m2.2 ++ t3 ++ t4 ++ t5,
              some ("removing up original migrations: " ++ e))
          | (fs5, t5, none) =>
            match removeDirectories ff fs5 seedsRoot seedFilesToMove with
            | (fs6, t6, some e) =>
              (fs6, m1.2 ++ m2.2 ++ t3 ++ t4 ++ t5 ++ t6,
                some ("removing up original migrations: " ++ e))
            | (fs6, t6, none) =>
              match removeDirectories ff fs6 metadataDir
                ["functions.yaml", "tables.yaml"] with
              | (fs7, t7, some e) =>
                (fs7, m1.2 ++ m2.2 ++ t3 ++ t4 ++ t5 ++ t6 ++ t7, some e)
              | (fs7, t7, none) =>
                (fs7, m1.2 ++ m2.2 ++ t3 ++ t4 ++ t5 ++ t6 ++ t7, none)

/-- Everything the pipeline runs after the state copy (source lines
121–200): list migrations and seeds to move, create the target directories
(failures suppressed, see `mkdirStep`), copy migrations and seeds, write the
bumped config, delete original migrations, seeds and the legacy
`functions.yaml`/`tables.yaml`, then export and write server metadata. -/
def restOfPipeline (opts : UpdateProjectV3Opts) (env : Env) (ff : FsFaults)
    (targetDatabase : String) (w : World) : Outcome :=
  match getMigrationDirectoryNames ff w.fs opts.migrationsAbsDirectoryPath with
  | none => ⟨w, [], some "getting list of migrations to move"⟩
  | some migrationDirectoriesToMove =>
    match getSeedFiles ff w.fs opts.seedsAbsDirectoryPath with
    | none => ⟨w, [], some "getting list of seed files to move"⟩
    | some seedFilesToMove =>
      let targetMigrationsDirectoryName :=
        opts.migrationsAbsDirectoryPath ++ [targetDatabase]
      let m1 := mkdirStep ff w.fs targetMigrationsDirectoryName
      let targetSeedsDirectoryName :=
        opts.seedsAbsDirectoryPath ++ [targetDatabase]
      let m2 := mkdirStep ff m1.1 targetSeedsDirectoryName
      match copyMigrations ff m2.1 migrationDirectoriesToMove
        opts.migrationsAbsDirectoryPath targetMigrationsDirectoryName with
      | (fs3, t3, some e) =>
        ⟨{ w with fs := fs3 }, m1.2 ++ m2.2 ++ t3,
          some ("moving migrations to target database directory: " ++ e)⟩
      | (fs3, t3, none) =>
        match copyFiles ff fs3 seedFilesToMove
          opts.seedsAbsDirectoryPath targetSeedsDirectoryName with
        | (fs4, t4, some e) =>
          ⟨{ w with fs := fs4 }, m1.2 ++ m2.2 ++ t3 ++ t4,
            some ("moving seeds to target database directory: " ++ e)⟩
        | (fs4, t4, none) =>
          if env.writeConfigFail then
            ⟨{ w with fs := fs4 }, m1.2 ++ m2.2 ++ t3 ++ t4,
              some "writing config failed"⟩
          else
            let w5 : World :=
              { fs := fs4, catalog := w.catalog, configVersion := V3 }
            let t5 := m1.2 ++ m2.2 ++ t3 ++ t4 ++ [Ev.wroteConfig V3]
            match removeDirectories ff w5.fs opts.migrationsAbsDirectoryPath
              migrationDirectoriesToMove with
            | (fs6, t6, some e) =>
              ⟨{ w5 with fs := fs6 }, t5 ++ t6,
                some ("removing up original migrations: " ++ e)⟩
            | (fs6, t6, none) =>
              match removeDirectories ff fs6 opts.seedsAbsDirectoryPath
                seedFilesToMove with
              | (fs7, t7, some e) =>
                ⟨{ w5 with fs := fs7 }, t5 ++ t6 ++ t7,
                  some ("removing up original migrations: " ++ e)⟩
              | (fs7, t7, none) =>
                match removeDirectories ff fs7 opts.metadataDir
                  ["functions.yaml", "tables.yaml"] with
                | (fs8, t8, some e) =>
                  ⟨{ w5 with fs := fs8 }, t5 ++ t6 ++ t7 ++ t8, some e⟩
                | (fs8, t8, none) =>
                  if env.exportMetadataFail then
                    ⟨{ w5 with fs := fs8 }, t5 ++ t6 ++ t7 ++ t8,
                      some "exporting metadata failed"⟩
                  else if env.writeMetadataFail then
                    ⟨{ w5 with fs := fs8 }, t5 ++ t6 ++ t7 ++ t8,
                      some "writing metadata failed"⟩
                  else
                    let fs9 := env.exportedFiles.foldl
                      (fun acc pf => acc.set pf.1 (.file pf.2)) fs8
                    ⟨{ w5 with fs := fs9 },
                      t5 ++ t6 ++ t7 ++ t8 ++
                        env.exportedFiles.map (fun pf => Ev.wroteMetadataFile pf.1),
                      none⟩

/-- The full input bundle of a pipeline run. -/
structure Input where
  opts : UpdateProjectV3Opts
  env : Env
  tbl : HdbTable
  sf : StoreFaults
  ff : FsFaults
  world : World

/-- `UpdateProjectV3` (source lines 43–201).  Pre-checks (config version
unless move-state-only, server capability, metadata consistency, the yes/no
confirmation unless forced), source listing and target-database resolution,
then — only when at least one source is connected — the state transplant via
`CopyState` with the move-state-only early return, and finally the
directory reorganization, config rewrite and metadata resync of
`restOfPipeline`. -/
def UpdateProjectV3 (i : Input) : Outcome :=
  let opts := i.opts
  let env := i.env
  let w := i.world
  if w.configVersion ≠ V2 && !opts.moveStateOnly then
    ⟨w, [], some "project should be using config V2 to be able to update to V3"⟩
  else if !env.hasMetadataV3 then
    ⟨w, [], some "unsupported server version, config V3 is supported only on server with metadata version >= 3"⟩
  else if env.inconsistentMetadataCheckFail then
    ⟨w, [], some "determing server metadata inconsistency"⟩
  else if !env.metadataConsistent then
    ⟨w, [], some "cannot continue: metadata is inconsistent on the server"⟩
  else if !opts.force && env.confirmFail then
    ⟨w, [], some "confirm prompt failed"⟩
  else if !opts.force && env.confirmAnswer == "n" then
    ⟨w, [], none⟩
  else if env.getSourcesFail then
    ⟨w, [], some "getting sources failed"⟩
  else
    let sources := env.sources
    match selectTargetDatabase env opts.targetDatabase sources with
    | (t0, .error e) => ⟨w, t0, some e⟩
    | (t0, .ok targetDatabase) =>
      if sources.length ≥ 1 then
        match CopyState i.sf i.tbl w.catalog targetDatabase targetDatabase with
        | (cat1, some e) => ⟨{ w with catalog := cat1 }, t0, some e⟩
        | (cat1, none) =>
          let w1 := { w with catalog := cat1 }
          let t1 := t0 ++ [Ev.copiedState targetDatabase targetDatabase]
          if opts.moveStateOnly then ⟨w1, t1, none⟩
          else
            let r := restOfPipeline opts env i.ff targetDatabase w1
            ⟨r.world, t1 ++ r.trace, r.err⟩
      else
        let r := restOfPipeline opts env i.ff targetDatabase w
        ⟨r.world, t0 ++ r.trace, r.err⟩

/-! ## Concrete example inputs used by witnesses and counterexamples -/

/-- A small project tree: two matched migrations (a directory and a file),
one unmatched directory, one seed file, and a legacy metadata file. -/
def exFs : Fs := ⟨[(["migrations"], .dir),
  (["migrations", "1610000000000_init"], .dir),
  (["migrations", "1610000000000_init", "up.sql"], .file [1, 2]),
  (["migrations", "1610000000001_add"], .file [9]),
  (["migrations", "notamigration"], .dir),
  (["seeds"], .dir),
  (["seeds", "seed1.sql"], .file [7]),
  (["metadata"], .dir),
  (["metadata", "functions.yaml"], .file [3])]⟩

def exEnv : Env :=
  { hasMetadataV3 := true, inconsistentMetadataCheckFail := false,
    metadataConsistent := true, confirmFail := false, confirmAnswer := "y",
    getSourcesFail := false, sources := ["default"], selectFail := false,
    selectAnswer := "x", writeConfigFail := false, exportMetadataFail := false,
    exportedFiles := [(["metadata", "databases.yaml"], [5])],
    writeMetadataFail := false }

def exOpts : UpdateProjectV3Opts :=
  { migrationsAbsDirectoryPath := ["migrations"],
    seedsAbsDirectoryPath := ["seeds"], metadataDir := ["metadata"],
    targetDatabase := "", force := true, moveStateOnly := false }

def exTbl : HdbTable :=
  { migrations := [⟨1610000000000, false⟩, ⟨1610000000001, false⟩],
    settings := [("migration_mode", "true")] }

def exCat : CatalogState :=
  { migrations := [], settings := [], isStateCopyCompleted := false }

def exWorld : World := { fs := exFs, catalog := exCat, configVersion := V2 }

def exInput : Input :=
  { opts := exOpts, env := exEnv, tbl := exTbl, sf := noStoreFaults,
    ff := noFsFaults, world := exWorld }

/-- `exInput` with a fault injected into the copy of the second matched
migration. -/
def exInputCopyFail : Input :=
  { exInput with ff :=
      { noFsFaults with copyFail := fun p => p = ["migrations", "1610000000001_add"] } }

/-- `exInput` with a fault injected into the deletion of the first matched
migration. -/
def exInputRemoveFail : Input :=
  { exInput with ff :=
      { noFsFaults with removeFail := fun p => p = ["migrations", "1610000000000_init"] } }

/-- `exInput` with a fault injected into the creation of the target
migrations directory. -/
def exInputMkdirFail : Input :=
  { exInput with ff :=
      { noFsFaults with mkdirFail := fun p => p = ["migrations", "default"] } }

/-- `exInput` with the move-state-only flag set, an explicit target name,
and a backend reporting zero connected sources. -/
def exInputMsoNoSources : Input :=
  { exInput with
    opts := { exOpts with targetDatabase := "mydb", moveStateOnly := true },
    env := { exEnv with sources := [] } }

/-- `exInput` with only the move-state-only flag set. -/
def exInputMso : Input :=
  { exInput with opts := { exOpts with moveStateOnly := true } }

/-- A project tree with no entry matching the migration convention but with
one seed file and a legacy metadata file absent. -/
def exFs8 : Fs := ⟨[(["migrations"], .dir),
  (["migrations", "notamigration"], .dir),
  (["seeds"], .dir),
  (["seeds", "seed1.sql"], .file [7]),
  (["metadata"], .dir)]⟩

/-- A project tree with no matched migration, no seed file and no legacy
metadata file. -/
def exFs8b : Fs := ⟨[(["migrations"], .dir),
  (["migrations", "notamigration"], .dir),
  (["seeds"], .dir),
  (["seeds", "adir"], .dir),
  (["metadata"], .dir)]⟩

/-- Executable check that every entry strictly below an immediate child of
`mroot` has a directory (not a file) as that child — files under `mroot`
are leaves. -/
def leafOK (fs : Fs) (mroot : Path) : Bool :=
  fs.entries.all (fun e =>
    !(underDir mroot e.1 && decide (mroot.length + 1 < e.1.length)) ||
    (match e.1.drop mroot.length with
     | n :: _ =>
       match fs.stat (mroot ++ [n]) with
       | some (.file _) => false
       | _ => true
     | [] => true))

/-! ## Verification artifacts: closed forms of the copy phases

These definitions are not part of the embedded program; they give, as a
function of the filesystem *before* the copy phase, the entries the copy
phase appends.  They are used to state and prove the phase lemmas below. -/

/-- The entries appended by `copyMigrations ff fs dirs par tgt`, computed
from the pre-phase filesystem: nothing for a skipped entry (failed `Stat` or
absent source), the re-rooted subtree for a directory, the single file
otherwise. -/
def migDelta (ff : FsFaults) (orig : Fs) (par tgt : Path) :
    List String → List (Path × FsNode)
  | [] => []
  | d :: rest =>
    (if ff.statFail (par ++ [d]) then []
     else
       match orig.stat (par ++ [d]) with
       | none => []
       | some .dir => copyTree orig (par ++ [d]) (tgt ++ [d])
       | some (.file c) => [(tgt ++ [d], .file c)]) ++
    migDelta ff orig par tgt rest

/-- The entries appended by `copyFiles ff fs files par tgt` when every
source is a file. -/
def seedDelta (orig : Fs) (par tgt : Path) : List String → List (Path × FsNode)
  | [] => []
  | f :: rest =>
    (match orig.stat (par ++ [f]) with
     | some (.file c) => [(tgt ++ [f], .file c)]
     | _ => []) ++
    seedDelta orig par tgt rest

/-- Entries already appended ahead of a copy phase are harmless when each of
them either lies in the target subtree or is unrelated to every source
entry of the phase. -/
def accSafe (ds : List String) (par tgt : Path) (p : Path) : Prop :=
  underDir tgt p = true ∨
    ∀ d ∈ ds, p ≠ par ++ [d] ∧ underDir (par ++ [d]) p = false

/-- No deletion event occurs in the trace. -/
def NoRemoved (t : List Ev) : Prop := ∀ q, Ev.removed q ∉ t

/-- No config-write event occurs in the trace. -/
def NoWroteConfig (t : List Ev) : Prop := ∀ v, Ev.wroteConfig v ∉ t

/-- No failed-copy event occurs in the trace. -/
def NoCopyFailed (t : List Ev) : Prop := ∀ p, Ev.copyFailed p ∉ t

/-! ## Basic lemmas: `underDir` -/

theorem underDir_iff_exists {p q : Path} : underDir p q = true ↔ ∃ r, q = p ++ r := by
  induction p generalizing q with
  | nil => simp [underDir]
  | cons a as ih =>
    cases q with
    | nil =>
      simp only [underDir, Bool.false_eq_true, false_iff]
      rintro ⟨r, hr⟩
      exact (List.cons_ne_nil a (as ++ r)) hr.symm
    | cons b bs =>
      simp only [underDir, Bool.and_eq_true, beq_iff_eq, ih]
      constructor
      · rintro ⟨hab, r, hr⟩
        exact ⟨r, by simp [hab, hr]⟩
      · rintro ⟨r, hr⟩
        simp only [List.cons_append, List.cons.injEq] at hr
        exact ⟨hr.1.symm, r, hr.2⟩

theorem underDir_append (p r : Path) : underDir p (p ++ r) = true :=
  underDir_iff_exists.mpr ⟨r, rfl⟩

theorem underDir_refl (p : Path) : underDir p p = true := by
  simpa using underDir_append p []

theorem eq_append_drop_of_underDir {p q : Path} (h : underDir p q = true) :
    q = p ++ q.drop p.length := by
  obtain ⟨r, rfl⟩ := underDir_iff_exists.mp h
  simp

theorem underDir_of_underDir_concat {a : Path} {x : String} {q : Path}
    (h : underDir (a ++ [x]) q = true) : underDir a q = true := by
  obtain ⟨r, rfl⟩ := underDir_iff_exists.mp h
  simpa using underDir_append a ([x] ++ r)

theorem underDir_iff_isPrefix {p q : Path} : underDir p q = true ↔ p <+: q := by
  rw [underDir_iff_exists]
  constructor
  · rintro ⟨r, rfl⟩
    exact ⟨r, rfl⟩
  · rintro ⟨r, rfl⟩
    exact ⟨r, rfl⟩

theorem underDir_comparable {a b q : Path} (ha : underDir a q = true)
    (hb : underDir b q = true) : underDir a b = true ∨ underDir b a = true := by
  rw [underDir_iff_isPrefix] at ha hb ⊢
  rw [underDir_iff_isPrefix (p := b)]
  exact List.prefix_or_prefix_of_prefix ha hb

theorem underDir_concat_concat {p : Path} {a b : String} {r : Path}
    (h : underDir (p ++ [a]) (p ++ [b] ++ r) = true) : a = b := by
  obtain ⟨s, hs⟩ := underDir_iff_exists.mp h
  rw [List.append_assoc, List.append_assoc] at hs
  have := List.append_cancel_left hs
  exact ((List.cons.inj this).1).symm

theorem underDir_concat_same {p : Path} {a b : String}
    (h : underDir (p ++ [a]) (p ++ [b]) = true) : a = b := by
  have : underDir (p ++ [a]) (p ++ [b] ++ []) = true := by simpa using h
  exact underDir_concat_concat this

theorem underDir_false_of_concat {p : Path} {a b : String} {r : Path}
    (hne : a ≠ b) : underDir (p ++ [a]) (p ++ [b] ++ r) = false := by
  cases h : underDir (p ++ [a]) (p ++ [b] ++ r) with
  | false => rfl
  | true => exact absurd (underDir_concat_concat h) hne

/-! ## Basic lemmas: `statE` and the filesystem operations -/

theorem statE_append (a b : List (Path × FsNode)) (q : Path) :
    statE (a ++ b) q =
      match statE b q with
      | some n => some n
      | none => statE a q := by
  induction a with
  | nil =>
    simp only [List.nil_append]
    cases statE b q <;> simp [statE]
  | cons e as ih =>
    simp only [List.cons_append, statE]
    have hab : statE (as.append b) q = statE (as ++ b) q := rfl
    rw [hab, ih]
    cases statE b q <;> cases statE as q <;> simp

theorem statE_none_of_keys_ne {l : List (Path × FsNode)} {q : Path}
    (h : ∀ e ∈ l, e.1 ≠ q) : statE l q = none := by
  induction l with
  | nil => rfl
  | cons e as ih =>
    have h1 : e.1 ≠ q := h e (List.mem_cons_self e as)
    have h2 : statE as q = none := ih (fun x hx => h x (List.mem_cons_of_mem e hx))
    simp [statE, h2, h1]

theorem statE_isSome_iff {l : List (Path × FsNode)} {q : Path} :
    (statE l q).isSome = true ↔ ∃ e ∈ l, e.1 = q := by
  induction l with
  | nil =>
    simp only [statE, Option.isSome_none, Bool.false_eq_true, false_iff]
    rintro ⟨x, hx, _⟩
    exact absurd hx (List.not_mem_nil x)
  | cons e as ih =>
    simp only [statE]
    cases h : statE as q with
    | some n =>
      simp only [Option.isSome_some, true_iff]
      have hs : (statE as q).isSome = true := by simp [h]
      obtain ⟨x, hx, hxq⟩ := ih.mp hs
      exact ⟨x, List.mem_cons_of_mem e hx, hxq⟩
    | none =>
      constructor
      · intro hs
        by_cases he : e.1 = q
        · exact ⟨e, List.mem_cons_self e as, he⟩
        · simp [he] at hs
      · rintro ⟨x, hx, hxq⟩
        rcases List.mem_cons.mp hx with rfl | hx
        · simp [hxq]
        · have : (statE as q).isSome = true := ih.mpr ⟨x, hx, hxq⟩
          rw [h] at this
          exact absurd this (by simp)

theorem statE_filter (keep : Path → Bool) (l : List (Path × FsNode)) (q : Path) :
    statE (l.filter (fun e => keep e.1)) q = if keep q then statE l q else none := by
  induction l with
  | nil => simp [statE]
  | cons e as ih =>
    rw [List.filter_cons]
    by_cases hk : keep e.1
    · by_cases hq : keep q
      · simp only [hk, if_true, statE, ih, hq]
      · have hne : e.1 ≠ q := fun h => by rw [h] at hk; exact hq hk
        simp only [hk, if_true, statE, ih, hq, if_false, hne]
        simp
    · by_cases hq : keep q
      · have hne : e.1 ≠ q := fun h => by rw [h] at hk; exact hk hq
        simp only [hk, Bool.false_eq_true, if_false, ih, hq, if_true, statE, hne]
        cases statE as q <;> simp [hne]
      · simp [hk, hq, ih]

theorem statE_copyTreeAux (src dst q : Path) (L : List (Path × FsNode)) :
    statE (L.filterMap (fun e =>
        if underDir src e.1 then some (dst ++ e.1.drop src.length, e.2) else none)) q =
      if underDir dst q then statE L (src ++ q.drop dst.length) else none := by
  induction L with
  | nil => simp [statE]
  | cons e l ih =>
    rw [List.filterMap_cons]
    by_cases hu : underDir src e.1 = true
    · have he : e.1 = src ++ e.1.drop src.length := eq_append_drop_of_underDir hu
      simp only [hu, if_true, statE, ih]
      by_cases hq : underDir dst q = true
      · simp only [hq, if_true]
        have hkey : (dst ++ e.1.drop src.length = q) ↔ (e.1 = src ++ q.drop dst.length) := by
          constructor
          · intro h
            have hq2 : q = dst ++ q.drop dst.length := eq_append_drop_of_underDir hq
            rw [hq2] at h
            have h3 := List.append_cancel_left h
            rw [he, h3]
          · intro h
            have h3 : e.1.drop src.length = q.drop dst.length := by
              rw [h, List.drop_left]
            rw [h3]
            exact (eq_append_drop_of_underDir hq).symm
        cases statE l (src ++ q.drop dst.length) with
        | some n => simp
        | none => simp only [hkey]
      · simp only [hq, if_false]
        have hne : dst ++ e.1.drop src.length ≠ q := by
          intro h
          rw [← h] at hq
          exact hq (underDir_append dst (e.1.drop src.length))
        simp [hne]
    · simp only [Bool.not_eq_true] at hu
      simp only [hu, Bool.false_eq_true, if_false, ih, statE]
      by_cases hq : underDir dst q = true
      · simp only [hq, if_true]
        have hne : e.1 ≠ src ++ q.drop dst.length := by
          intro h
          rw [h] at hu
          rw [underDir_append src (q.drop dst.length)] at hu
          exact Bool.true_eq_false.mp hu
        cases statE l (src ++ q.drop dst.length) with
        | some n => simp
        | none => simp [hne]
      · simp [hq]

theorem statE_copyTree (fs : Fs) (src dst q : Path) :
    statE (copyTree fs src dst) q =
      if underDir dst q then statE fs.entries (src ++ q.drop dst.length)
      else none :=
  statE_copyTreeAux src dst q fs.entries

theorem Fs.stat_set (fs : Fs) (p : Path) (n : FsNode) (q : Path) :
    (fs.set p n).stat q = if p = q then some n else fs.stat q := by
  unfold Fs.set Fs.stat
  rw [statE_append]
  by_cases h : p = q
  · simp [statE, h]
  · simp only [statE, h, if_false]

theorem Fs.stat_removeAll (fs : Fs) (p q : Path) :
    (fs.removeAll p).stat q = if underDir p q then none else fs.stat q := by
  unfold Fs.removeAll Fs.stat
  have := statE_filter (fun k => !(underDir p k)) fs.entries q
  simp only [this]
  by_cases h : underDir p q <;> simp [h]

theorem Fs.stat_copyDir (fs : Fs) (src dst q : Path) :
    (fs.copyDir src dst).stat q =
      if underDir dst q then
        match fs.stat (src ++ q.drop dst.length) with
        | some n => some n
        | none => fs.stat q
      else fs.stat q := by
  unfold Fs.copyDir Fs.stat
  rw [statE_append, statE_copyTree]
  by_cases h : underDir dst q = true
  · simp only [h, if_true]
  · simp only [h, Bool.false_eq_true, if_false]

theorem Fs.stat_mkdir {fs : Fs} {p : Path} {fs1 : Fs} (h : fs.mkdir p = some fs1)
    (q : Path) : fs1.stat q = if p = q then some FsNode.dir else fs.stat q := by
  unfold Fs.mkdir at h
  by_cases h1 : (fs.stat p).isSome
  · simp [h1] at h
  · simp only [h1, Bool.false_eq_true, if_false] at h
    by_cases h2 : p = []
    · simp [h2] at h
    · simp only [h2, if_false] at h
      cases h3 : fs.stat p.dropLast with
      | none => rw [h3] at h; exact absurd h (by simp)
      | some n =>
        rw [h3] at h
        cases n with
        | file c => exact absurd h (by simp)
        | dir =>
          simp only [Option.some.injEq] at h
          subst h
          show statE (fs.entries ++ [(p, FsNode.dir)]) q = _
          rw [statE_append]
          by_cases hpq : p = q
          · simp [statE, hpq]
          · simp only [statE, hpq, if_false]
            rfl

/-! ## Listing lemmas: `childNames`, `sortNames`, `readDir` -/

theorem childName_eq_some {parent p : Path} {n : String} :
    childName parent p = some n ↔ p = parent ++ [n] := by
  unfold childName
  constructor
  · intro h
    by_cases hu : underDir parent p = true
    · simp only [hu, if_true] at h
      have hp : p = parent ++ p.drop parent.length := eq_append_drop_of_underDir hu
      cases hd : p.drop parent.length with
      | nil => rw [hd] at h; exact absurd h (by simp)
      | cons a l =>
        cases l with
        | nil =>
          rw [hd] at h
          simp only [Option.some.injEq] at h
          rw [hp, hd, h]
        | cons b l2 => rw [hd] at h; exact absurd h (by simp)
    · simp only [Bool.not_eq_true] at hu
      rw [hu] at h
      exact absurd h (by simp)
  · rintro rfl
    have hu : underDir parent (parent ++ [n]) = true := underDir_append parent [n]
    simp [hu, List.drop_left]

theorem mem_childNames {fs : Fs} {p : Path} {n : String} :
    n ∈ fs.childNames p ↔ ∃ e ∈ fs.entries, e.1 = p ++ [n] := by
  unfold Fs.childNames
  rw [List.mem_dedup, List.mem_filterMap]
  constructor
  · rintro ⟨e, he, hc⟩
    exact ⟨e, he, childName_eq_some.mp hc⟩
  · rintro ⟨e, he, hc⟩
    exact ⟨e, he, childName_eq_some.mpr hc⟩

theorem childNames_nodup (fs : Fs) (p : Path) : (fs.childNames p).Nodup :=
  List.nodup_dedup _

theorem stat_isSome_of_mem_childNames {fs : Fs} {p : Path} {n : String}
    (h : n ∈ fs.childNames p) : (fs.stat (p ++ [n])).isSome = true :=
  statE_isSome_iff.mpr (mem_childNames.mp h)

theorem insertName_perm (x : String) (l : List String) :
    (insertName x l).Perm (x :: l) := by
  induction l with
  | nil => simp [insertName]
  | cons y ys ih =>
    unfold insertName
    by_cases h : strLe x y
    · simp [h]
    · simp only [h, Bool.false_eq_true, if_false]
      exact (List.Perm.cons y ih).trans (List.Perm.swap x y ys)

theorem sortNames_perm (l : List String) : (sortNames l).Perm l := by
  induction l with
  | nil => simp [sortNames]
  | cons x xs ih =>
    unfold sortNames
    exact (insertName_perm x (sortNames xs)).trans (List.Perm.cons x ih)

theorem mem_sortNames {a : String} {l : List String} : a ∈ sortNames l ↔ a ∈ l :=
  (sortNames_perm l).mem_iff

theorem sortNames_nodup {l : List String} (h : l.Nodup) : (sortNames l).Nodup :=
  ((sortNames_perm l).nodup_iff).mpr h

theorem readDir_eq {fs : Fs} {p : Path} {ds : List (String × Bool)}
    (h : fs.readDir p = some ds) :
    fs.stat p = some FsNode.dir ∧
      ds = (sortNames (fs.childNames p)).map
        (fun n => (n, ((fs.stat (p ++ [n])).map FsNode.isDir).getD false)) := by
  unfold Fs.readDir at h
  cases hs : fs.stat p with
  | none => rw [hs] at h; exact absurd h (by simp)
  | some n =>
    rw [hs] at h
    cases n with
    | file c => exact absurd h (by simp)
    | dir =>
      simp only [Option.some.injEq] at h
      exact ⟨rfl, h.symm⟩

theorem mem_of_mem_readDir {fs : Fs} {p : Path} {ds : List (String × Bool)}
    {n : String} {b : Bool} (h : fs.readDir p = some ds) (hm : (n, b) ∈ ds) :
    n ∈ fs.childNames p ∧ b = ((fs.stat (p ++ [n])).map FsNode.isDir).getD false := by
  obtain ⟨-, rfl⟩ := readDir_eq h
  obtain ⟨m, hmem, heq⟩ := List.mem_map.mp hm
  obtain ⟨rfl, rfl⟩ := Prod.mk.inj heq
  exact ⟨mem_sortNames.mp hmem, rfl⟩

theorem map_fst_map_pair {α β : Type} (l : List α) (f : α → β) :
    ((l.map (fun n => (n, f n))).map (fun e => e.1)) = l := by
  induction l with
  | nil => rfl
  | cons x xs ih => simp [ih]

theorem readDir_names_nodup {fs : Fs} {p : Path} {ds : List (String × Bool)}
    (h : fs.readDir p = some ds) : (ds.map (fun e => e.1)).Nodup := by
  obtain ⟨-, rfl⟩ := readDir_eq h
  rw [map_fst_map_pair]
  exact sortNames_nodup (childNames_nodup fs p)

/-! ## Phase lemmas -/

theorem underDir_trans {a b c : Path} (h1 : underDir a b = true)
    (h2 : underDir b c = true) : underDir a c = true := by
  obtain ⟨r, rfl⟩ := underDir_iff_exists.mp h1
  obtain ⟨s, rfl⟩ := underDir_iff_exists.mp h2
  rw [List.append_assoc]
  exact underDir_append a (r ++ s)

theorem copyTree_append (l1 l2 : List (Path × FsNode)) (src dst : Path) :
    copyTree ⟨l1 ++ l2⟩ src dst = copyTree ⟨l1⟩ src dst ++ copyTree ⟨l2⟩ src dst :=
  List.filterMap_append l1 l2 _

theorem copyTree_eq_nil {l : List (Path × FsNode)} {src dst : Path}
    (h : ∀ e ∈ l, underDir src e.1 = false) : copyTree ⟨l⟩ src dst = [] := by
  unfold copyTree
  rw [List.filterMap_eq_nil_iff]
  intro e he
  simp [h e he]

theorem copyTree_keys {fs : Fs} {src dst : Path} {e : Path × FsNode}
    (h : e ∈ copyTree fs src dst) : underDir dst e.1 = true := by
  unfold copyTree at h
  obtain ⟨x, -, hx⟩ := List.mem_filterMap.mp h
  by_cases hu : underDir src x.1 = true
  · rw [if_pos hu] at hx
    cases Option.some.inj hx
    exact underDir_append dst (x.1.drop src.length)
  · rw [if_neg hu] at hx
    exact absurd hx (by simp)

theorem accSafe_of_sub {ds1 ds2 : List String} {par tgt p : Path}
    (hsub : ∀ d ∈ ds1, d ∈ ds2) (h : accSafe ds2 par tgt p) :
    accSafe ds1 par tgt p := by
  rcases h with h | h
  · exact Or.inl h
  · exact Or.inr (fun d hd => h d (hsub d hd))

theorem accSafe_ne {ds : List String} {par tgt p : Path} {d : String}
    (hd : d ∈ ds) (hd2 : underDir tgt (par ++ [d]) = false)
    (h : accSafe ds par tgt p) : p ≠ par ++ [d] := by
  rcases h with h | h
  · intro he
    rw [he] at h
    rw [h] at hd2
    exact absurd hd2 (by simp)
  · exact (h d hd).1

theorem accSafe_not_under {ds : List String} {par tgt p : Path} {d : String}
    (hd : d ∈ ds) (hd1 : underDir (par ++ [d]) tgt = false)
    (hd2 : underDir tgt (par ++ [d]) = false)
    (h : accSafe ds par tgt p) : underDir (par ++ [d]) p = false := by
  rcases h with h | h
  · cases hu : underDir (par ++ [d]) p with
    | false => rfl
    | true =>
      rcases underDir_comparable hu h with hc | hc
      · rw [hc] at hd1; exact absurd hd1 (by simp)
      · rw [hc] at hd2; exact absurd hd2 (by simp)
  · exact (h d hd).2

theorem copyMigrations_eq (ff : FsFaults) (par tgt : Path) :
    ∀ (ds : List String) (orig : Fs) (acc : List (Path × FsNode)),
    (∀ d ∈ ds, underDir (par ++ [d]) tgt = false) →
    (∀ d ∈ ds, underDir tgt (par ++ [d]) = false) →
    (∀ d ∈ ds, ff.copyFail (par ++ [d]) = false) →
    (∀ e ∈ acc, accSafe ds par tgt e.1) →
    (copyMigrations ff ⟨orig.entries ++ acc⟩ ds par tgt).1 =
        ⟨orig.entries ++ (acc ++ migDelta ff orig par tgt ds)⟩ ∧
      (copyMigrations ff ⟨orig.entries ++ acc⟩ ds par tgt).2.2 = none := by
  intro ds
  induction ds with
  | nil =>
    intro orig acc _ _ _ _
    simp [copyMigrations, migDelta]
  | cons d rest ih =>
    intro orig acc hd1 hd2 hcf hacc
    have hdm : d ∈ d :: rest := List.mem_cons_self d rest
    have hkeyne : ∀ e ∈ acc, e.1 ≠ par ++ [d] := fun e he =>
      accSafe_ne hdm (hd2 d hdm) (hacc e he)
    have hstat : Fs.stat ⟨orig.entries ++ acc⟩ (par ++ [d]) = orig.stat (par ++ [d]) := by
      show statE (orig.entries ++ acc) (par ++ [d]) = _
      rw [statE_append, statE_none_of_keys_ne hkeyne]
      rfl
    have hsubrest : ∀ x ∈ rest, x ∈ d :: rest := fun x hx => List.mem_cons_of_mem d hx
    have haccrest : ∀ e ∈ acc, accSafe rest par tgt e.1 := fun e he =>
      accSafe_of_sub hsubrest (hacc e he)
    have hd1r : ∀ x ∈ rest, underDir (par ++ [x]) tgt = false := fun x hx => hd1 x (hsubrest x hx)
    have hd2r : ∀ x ∈ rest, underDir tgt (par ++ [x]) = false := fun x hx => hd2 x (hsubrest x hx)
    have hcfr : ∀ x ∈ rest, ff.copyFail (par ++ [x]) = false := fun x hx => hcf x (hsubrest x hx)
    by_cases hsf : ff.statFail (par ++ [d]) = true
    · have hrec := ih orig acc hd1r hd2r hcfr haccrest
      simp only [copyMigrations, hsf, if_true, migDelta, List.nil_append]
      exact hrec
    · simp only [Bool.not_eq_true] at hsf
      cases hso : orig.stat (par ++ [d]) with
      | none =>
        have hrec := ih orig acc hd1r hd2r hcfr haccrest
        simp only [copyMigrations, hsf, Bool.false_eq_true, if_false, hstat, hso,
          migDelta, List.nil_append]
        exact hrec
      | some n =>
        cases n with
        | dir =>
          have hct : copyTree ⟨orig.entries ++ acc⟩ (par ++ [d]) (tgt ++ [d]) =
              copyTree orig (par ++ [d]) (tgt ++ [d]) := by
            have hnil : copyTree ⟨acc⟩ (par ++ [d]) (tgt ++ [d]) = [] :=
              copyTree_eq_nil (fun e he =>
                accSafe_not_under hdm (hd1 d hdm) (hd2 d hdm) (hacc e he))
            have happ := copyTree_append orig.entries acc (par ++ [d]) (tgt ++ [d])
            rw [hnil, List.append_nil] at happ
            exact happ
          have hacc2 : ∀ e ∈ acc ++ copyTree orig (par ++ [d]) (tgt ++ [d]),
              accSafe rest par tgt e.1 := by
            intro e he
            rcases List.mem_append.mp he with he | he
            · exact haccrest e he
            · left
              have hk : underDir (tgt ++ [d]) e.1 = true := copyTree_keys he
              exact underDir_trans (underDir_append tgt [d]) hk
          have hrec := ih orig (acc ++ copyTree orig (par ++ [d]) (tgt ++ [d]))
            hd1r hd2r hcfr hacc2
          simp only [copyMigrations, hsf, Bool.false_eq_true, if_false, hstat, hso,
            hcf d hdm, Fs.copyDir, hct, migDelta]
          simp only [List.append_assoc] at hrec ⊢
          exact hrec
        | file c =>
          have hacc2 : ∀ e ∈ acc ++ [(tgt ++ [d], FsNode.file c)],
              accSafe rest par tgt e.1 := by
            intro e he
            rcases List.mem_append.mp he with he | he
            · exact haccrest e he
            · left
              rcases List.mem_singleton.mp he with rfl
              exact underDir_append tgt [d]
          have hrec := ih orig (acc ++ [(tgt ++ [d], FsNode.file c)])
            hd1r hd2r hcfr hacc2
          simp only [copyMigrations, hsf, Bool.false_eq_true, if_false, hstat, hso,
            hcf d hdm, Fs.set, migDelta]
          simp only [List.append_assoc] at hrec ⊢
          exact hrec

theorem copyFiles_eq (ff : FsFaults) (par tgt : Path) :
    ∀ (fls : List String) (orig : Fs) (acc : List (Path × FsNode)),
    (∀ f ∈ fls, underDir tgt (par ++ [f]) = false) →
    (∀ f ∈ fls, ff.copyFail (par ++ [f]) = false) →
    (∀ f ∈ fls, ∃ c, orig.stat (par ++ [f]) = some (.file c)) →
    (∀ e ∈ acc, accSafe fls par tgt e.1) →
    (copyFiles ff ⟨orig.entries ++ acc⟩ fls par tgt).1 =
        ⟨orig.entries ++ (acc ++ seedDelta orig par tgt fls)⟩ ∧
      (copyFiles ff ⟨orig.entries ++ acc⟩ fls par tgt).2.2 = none := by
  intro fls
  induction fls with
  | nil =>
    intro orig acc _ _ _ _
    simp [copyFiles, seedDelta]
  | cons f rest ih =>
    intro orig acc hd2 hcf hsf hacc
    have hfm : f ∈ f :: rest := List.mem_cons_self f rest
    have hkeyne : ∀ e ∈ acc, e.1 ≠ par ++ [f] := fun e he =>
      accSafe_ne hfm (hd2 f hfm) (hacc e he)
    have hstat : Fs.stat ⟨orig.entries ++ acc⟩ (par ++ [f]) = orig.stat (par ++ [f]) := by
      show statE (orig.entries ++ acc) (par ++ [f]) = _
      rw [statE_append, statE_none_of_keys_ne hkeyne]
      rfl
    obtain ⟨c, hc⟩ := hsf f hfm
    have hsubrest : ∀ x ∈ rest, x ∈ f :: rest := fun x hx => List.mem_cons_of_mem f hx
    have haccrest : ∀ e ∈ acc, accSafe rest par tgt e.1 := fun e he =>
      accSafe_of_sub hsubrest (hacc e he)
    have hd2r : ∀ x ∈ rest, underDir tgt (par ++ [x]) = false := fun x hx => hd2 x (hsubrest x hx)
    have hcfr : ∀ x ∈ rest, ff.copyFail (par ++ [x]) = false := fun x hx => hcf x (hsubrest x hx)
    have hsfr : ∀ x ∈ rest, ∃ c2, orig.stat (par ++ [x]) = some (.file c2) :=
      fun x hx => hsf x (hsubrest x hx)
    have hacc2 : ∀ e ∈ acc ++ [(tgt ++ [f], FsNode.file c)],
        accSafe rest par tgt e.1 := by
      intro e he
      rcases List.mem_append.mp he with he | he
      · exact haccrest e he
      · left
        rcases List.mem_singleton.mp he with rfl
        exact underDir_append tgt [f]
    have hrec := ih orig (acc ++ [(tgt ++ [f], FsNode.file c)]) hd2r hcfr hsfr hacc2
    simp only [copyFiles, hcf f hfm, Bool.false_eq_true, if_false, Fs.copyFile,
      hstat, hc, seedDelta]
    simp only [List.append_assoc] at hrec ⊢
    exact hrec

theorem removeDirectories_eq (ff : FsFaults) (par : Path) :
    ∀ (ds : List String) (fs : Fs),
    (∀ d ∈ ds, ff.removeFail (par ++ [d]) = false) →
    removeDirectories ff fs par ds =
      (⟨fs.entries.filter (fun e => ds.all (fun d => !(underDir (par ++ [d]) e.1)))⟩,
       ds.map (fun d => Ev.removed (par ++ [d])), none) := by
  intro ds
  induction ds with
  | nil =>
    intro fs _
    simp [removeDirectories, List.filter_true]
  | cons d rest ih =>
    intro fs hrf
    have hdm : d ∈ d :: rest := List.mem_cons_self d rest
    have hrec := ih (fs.removeAll (par ++ [d]))
      (fun x hx => hrf x (List.mem_cons_of_mem d hx))
    have hfs : (fs.removeAll (par ++ [d])).entries.filter
        (fun e => rest.all (fun x => !(underDir (par ++ [x]) e.1))) =
        fs.entries.filter
          (fun e => (d :: rest).all (fun x => !(underDir (par ++ [x]) e.1))) := by
      show (fs.entries.filter _).filter _ = _
      rw [List.filter_filter]
      apply List.filter_congr
      intro e _
      simp [List.all_cons, Bool.and_comm]
    simp only [removeDirectories, hrf d hdm, Bool.false_eq_true, if_false, hrec,
      hfs, List.map_cons]

theorem copyMigrations_trace_shape (ff : FsFaults) (par tgt : Path) :
    ∀ (ds : List String) (fs : Fs) (e : Ev),
    e ∈ (copyMigrations ff fs ds par tgt).2.1 →
    (∃ p q, e = Ev.copied p q) ∨ (∃ p, e = Ev.copyFailed p) := by
  intro ds
  induction ds with
  | nil =>
    intro fs e he
    simp [copyMigrations] at he
  | cons d rest ih =>
    intro fs e he
    by_cases hsf : ff.statFail (par ++ [d]) = true
    · simp only [copyMigrations, hsf, if_true] at he
      exact ih fs e he
    · simp only [Bool.not_eq_true] at hsf
      cases hso : fs.stat (par ++ [d]) with
      | none =>
        simp only [copyMigrations, hsf, Bool.false_eq_true, if_false, hso] at he
        exact ih fs e he
      | some n =>
        cases n with
        | dir =>
          by_cases hcf : ff.copyFail (par ++ [d]) = true
          · simp only [copyMigrations, hsf, Bool.false_eq_true, if_false, hso, hcf,
              if_true, List.mem_singleton] at he
            exact Or.inr ⟨par ++ [d], he⟩
          · simp only [Bool.not_eq_true] at hcf
            simp only [copyMigrations, hsf, Bool.false_eq_true, if_false, hso, hcf,
              List.mem_cons] at he
            rcases he with rfl | he
            · exact Or.inl ⟨par ++ [d], tgt ++ [d], rfl⟩
            · exact ih _ e he
        | file c =>
          by_cases hcf : ff.copyFail (par ++ [d]) = true
          · simp only [copyMigrations, hsf, Bool.false_eq_true, if_false, hso, hcf,
              if_true, List.mem_singleton] at he
            exact Or.inr ⟨par ++ [d], he⟩
          · simp only [Bool.not_eq_true] at hcf
            simp only [copyMigrations, hsf, Bool.false_eq_true, if_false, hso, hcf,
              List.mem_cons] at he
            rcases he with rfl | he
            · exact Or.inl ⟨par ++ [d], tgt ++ [d], rfl⟩
            · exact ih _ e he

theorem copyMigrations_none_no_copyFailed (ff : FsFaults) (par tgt : Path) :
    ∀ (ds : List String) (fs : Fs),
    (copyMigrations ff fs ds par tgt).2.2 = none →
    ∀ p, Ev.copyFailed p ∉ (copyMigrations ff fs ds par tgt).2.1 := by
  intro ds
  induction ds with
  | nil =>
    intro fs _ p hp
    simp [copyMigrations] at hp
  | cons d rest ih =>
    intro fs hnone p hp
    by_cases hsf : ff.statFail (par ++ [d]) = true
    · simp only [copyMigrations, hsf, if_true] at hnone hp
      exact ih fs hnone p hp
    · simp only [Bool.not_eq_true] at hsf
      cases hso : fs.stat (par ++ [d]) with
      | none =>
        simp only [copyMigrations, hsf, Bool.false_eq_true, if_false, hso] at hnone hp
        exact ih fs hnone p hp
      | some n =>
        cases n with
        | dir =>
          by_cases hcf : ff.copyFail (par ++ [d]) = true
          · simp only [copyMigrations, hsf, Bool.false_eq_true, if_false, hso, hcf,
              if_true] at hnone
            exact absurd hnone (by simp)
          · simp only [Bool.not_eq_true] at hcf
            simp only [copyMigrations, hsf, Bool.false_eq_true, if_false, hso, hcf,
              List.mem_cons] at hnone hp
            rcases hp with habs | hp
            · exact absurd habs (by simp)
            · exact ih _ hnone p hp
        | file c =>
          by_cases hcf : ff.copyFail (par ++ [d]) = true
          · simp only [copyMigrations, hsf, Bool.false_eq_true, if_false, hso, hcf,
              if_true] at hnone
            exact absurd hnone (by simp)
          · simp only [Bool.not_eq_true] at hcf
            simp only [copyMigrations, hsf, Bool.false_eq_true, if_false, hso, hcf,
              List.mem_cons] at hnone hp
            rcases hp with habs | hp
            · exact absurd habs (by simp)
            · exact ih _ hnone p hp

theorem copyFiles_trace_shape (ff : FsFaults) (par tgt : Path) :
    ∀ (fls : List String) (fs : Fs) (e : Ev),
    e ∈ (copyFiles ff fs fls par tgt).2.1 →
    (∃ p q, e = Ev.copied p q) ∨ (∃ p, e = Ev.copyFailed p) := by
  intro fls
  induction fls with
  | nil =>
    intro fs e he
    simp [copyFiles] at he
  | cons f rest ih =>
    intro fs e he
    simp only [copyFiles] at he
    by_cases hcf : ff.copyFail (par ++ [f]) = true
    · rw [if_pos hcf] at he
      simp only [List.mem_singleton] at he
      exact Or.inr ⟨par ++ [f], he⟩
    · rw [if_neg hcf] at he
      rcases hc : fs.copyFile (par ++ [f]) (tgt ++ [f]) with - | fs1
      · rw [hc] at he
        simp only [List.mem_singleton] at he
        exact Or.inr ⟨par ++ [f], he⟩
      · rw [hc] at he
        rcases List.mem_cons.mp he with rfl | he
        · exact Or.inl ⟨par ++ [f], tgt ++ [f], rfl⟩
        · exact ih _ e he

theorem copyFiles_none_no_copyFailed (ff : FsFaults) (par tgt : Path) :
    ∀ (fls : List String) (fs : Fs),
    (copyFiles ff fs fls par tgt).2.2 = none →
    ∀ p, Ev.copyFailed p ∉ (copyFiles ff fs fls par tgt).2.1 := by
  intro fls
  induction fls with
  | nil =>
    intro fs _ p hp
    simp [copyFiles] at hp
  | cons f rest ih =>
    intro fs hnone p hp
    simp only [copyFiles] at hnone hp
    by_cases hcf : ff.copyFail (par ++ [f]) = true
    · rw [if_pos hcf] at hnone
      exact absurd hnone (by simp)
    · rw [if_neg hcf] at hnone hp
      rcases hc : fs.copyFile (par ++ [f]) (tgt ++ [f]) with - | fs1
      · rw [hc] at hnone
        exact absurd hnone (by simp)
      · rw [hc] at hnone hp
        rcases List.mem_cons.mp hp with habs | hp
        · exact absurd habs (by simp)
        · exact ih _ hnone p hp

theorem removeDirectories_trace_shape (ff : FsFaults) (par : Path) :
    ∀ (ds : List String) (fs : Fs) (e : Ev),
    e ∈ (removeDirectories ff fs par ds).2.1 → ∃ p, e = Ev.removed p := by
  intro ds
  induction ds with
  | nil =>
    intro fs e he
    simp [removeDirectories] at he
  | cons d rest ih =>
    intro fs e he
    simp only [removeDirectories] at he
    by_cases hrf : ff.removeFail (par ++ [d]) = true
    · rw [if_pos hrf] at he
      simp at he
    · rw [if_neg hrf] at he
      rcases List.mem_cons.mp he with rfl | he
      · exact ⟨par ++ [d], rfl⟩
      · exact ih _ e he

theorem mkdirStep_trace_shape (ff : FsFaults) (fs : Fs) (p : Path) (e : Ev)
    (he : e ∈ (mkdirStep ff fs p).2) :
    e = Ev.madeDir p ∨ e = Ev.mkdirFailed p := by
  unfold mkdirStep at he
  by_cases hmf : ff.mkdirFail p = true
  · rw [if_pos hmf] at he
    simp only [List.mem_singleton] at he
    exact Or.inr he
  · rw [if_neg hmf] at he
    rcases hm : fs.mkdir p with - | fs1
    · rw [hm] at he
      simp only [List.mem_singleton] at he
      exact Or.inr he
    · rw [hm] at he
      simp only [List.mem_singleton] at he
      exact Or.inl he

/-! ## Trace-shape corollaries -/

theorem noRemoved_mkdirStep (ff : FsFaults) (fs : Fs) (p : Path) :
    NoRemoved (mkdirStep ff fs p).2 := by
  intro q hq
  rcases mkdirStep_trace_shape ff fs p _ hq with h | h <;> exact absurd h (by simp)

theorem noWroteConfig_mkdirStep (ff : FsFaults) (fs : Fs) (p : Path) :
    NoWroteConfig (mkdirStep ff fs p).2 := by
  intro v hv
  rcases mkdirStep_trace_shape ff fs p _ hv with h | h <;> exact absurd h (by simp)

theorem noCopyFailed_mkdirStep (ff : FsFaults) (fs : Fs) (p : Path) :
    NoCopyFailed (mkdirStep ff fs p).2 := by
  intro q hq
  rcases mkdirStep_trace_shape ff fs p _ hq with h | h <;> exact absurd h (by simp)

theorem noRemoved_copyMigrations (ff : FsFaults) (fs : Fs) (ds : List String)
    (par tgt : Path) : NoRemoved (copyMigrations ff fs ds par tgt).2.1 := by
  intro q hq
  rcases copyMigrations_trace_shape ff par tgt ds fs _ hq with ⟨p1, q1, h⟩ | ⟨p1, h⟩ <;>
    exact absurd h (by simp)

theorem noWroteConfig_copyMigrations (ff : FsFaults) (fs : Fs) (ds : List String)
    (par tgt : Path) : NoWroteConfig (copyMigrations ff fs ds par tgt).2.1 := by
  intro v hv
  rcases copyMigrations_trace_shape ff par tgt ds fs _ hv with ⟨p1, q1, h⟩ | ⟨p1, h⟩ <;>
    exact absurd h (by simp)

theorem noRemoved_copyFiles (ff : FsFaults) (fs : Fs) (fls : List String)
    (par tgt : Path) : NoRemoved (copyFiles ff fs fls par tgt).2.1 := by
  intro q hq
  rcases copyFiles_trace_shape ff par tgt fls fs _ hq with ⟨p1, q1, h⟩ | ⟨p1, h⟩ <;>
    exact absurd h (by simp)

theorem noWroteConfig_copyFiles (ff : FsFaults) (fs : Fs) (fls : List String)
    (par tgt : Path) : NoWroteConfig (copyFiles ff fs fls par tgt).2.1 := by
  intro v hv
  rcases copyFiles_trace_shape ff par tgt fls fs _ hv with ⟨p1, q1, h⟩ | ⟨p1, h⟩ <;>
    exact absurd h (by simp)

theorem noWroteConfig_removeDirectories (ff : FsFaults) (fs : Fs)
    (ds : List String) (par : Path) :
    NoWroteConfig (removeDirectories ff fs par ds).2.1 := by
  intro v hv
  obtain ⟨p1, h⟩ := removeDirectories_trace_shape ff par ds fs _ hv
  exact absurd h (by simp)

theorem noCopyFailed_removeDirectories (ff : FsFaults) (fs : Fs)
    (ds : List String) (par : Path) :
    NoCopyFailed (removeDirectories ff fs par ds).2.1 := by
  intro q hq
  obtain ⟨p1, h⟩ := removeDirectories_trace_shape ff par ds fs _ hq
  exact absurd h (by simp)

theorem noRemoved_exported (l : List (Path × List Nat)) :
    NoRemoved (l.map (fun pf => Ev.wroteMetadataFile pf.1)) := by
  intro q hq
  obtain ⟨x, -, h⟩ := List.mem_map.mp hq
  exact absurd h (by simp)

theorem noCopyFailed_exported (l : List (Path × List Nat)) :
    NoCopyFailed (l.map (fun pf => Ev.wroteMetadataFile pf.1)) := by
  intro q hq
  obtain ⟨x, -, h⟩ := List.mem_map.mp hq
  exact absurd h (by simp)

theorem noCopyFailed_copyMigrations_of_none {ff : FsFaults} {fs : Fs}
    {ds : List String} {par tgt : Path}
    (h : (copyMigrations ff fs ds par tgt).2.2 = none) :
    NoCopyFailed (copyMigrations ff fs ds par tgt).2.1 :=
  fun p hp => copyMigrations_none_no_copyFailed ff par tgt ds fs h p hp

theorem noCopyFailed_copyFiles_of_none {ff : FsFaults} {fs : Fs}
    {fls : List String} {par tgt : Path}
    (h : (copyFiles ff fs fls par tgt).2.2 = none) :
    NoCopyFailed (copyFiles ff fs fls par tgt).2.1 :=
  fun p hp => copyFiles_none_no_copyFailed ff par tgt fls fs h p hp

theorem noRemoved_wroteConfigSingleton : NoRemoved [Ev.wroteConfig V3] := by
  intro q hq
  simp only [List.mem_singleton] at hq
  exact absurd hq (by simp)

theorem noCopyFailed_wroteConfigSingleton : NoCopyFailed [Ev.wroteConfig V3] := by
  intro q hq
  simp only [List.mem_singleton] at hq
  exact absurd hq (by simp)

/-- Every run of the pipeline tail falls in one of two classes: it aborts
before the config write (version marker untouched, no config-write and no
deletion events), or it gets past the config write (version marker at V3,
config-write event present, and — since both copy phases must have
succeeded — no failed-copy event anywhere in its trace). -/
theorem restOfPipeline_cases (opts : UpdateProjectV3Opts) (env : Env)
    (ff : FsFaults) (td : String) (w : World) :
    ((restOfPipeline opts env ff td w).world.configVersion = w.configVersion ∧
      NoWroteConfig (restOfPipeline opts env ff td w).trace ∧
      NoRemoved (restOfPipeline opts env ff td w).trace) ∨
    ((restOfPipeline opts env ff td w).world.configVersion = V3 ∧
      Ev.wroteConfig V3 ∈ (restOfPipeline opts env ff td w).trace ∧
      NoCopyFailed (restOfPipeline opts env ff td w).trace) := by
  unfold restOfPipeline
  cases hg : getMigrationDirectoryNames ff w.fs opts.migrationsAbsDirectoryPath with
  | none =>
    left
    refine ⟨rfl, ?_, ?_⟩ <;> intro x hx <;> simp at hx
  | some migs =>
  cases hs : getSeedFiles ff w.fs opts.seedsAbsDirectoryPath with
  | none =>
    left
    refine ⟨rfl, ?_, ?_⟩ <;> intro x hx <;> simp at hx
  | some seeds =>
  dsimp only
  have hm1w := noWroteConfig_mkdirStep ff w.fs (opts.migrationsAbsDirectoryPath ++ [td])
  have hm1r := noRemoved_mkdirStep ff w.fs (opts.migrationsAbsDirectoryPath ++ [td])
  have hm1c := noCopyFailed_mkdirStep ff w.fs (opts.migrationsAbsDirectoryPath ++ [td])
  have hm2w := noWroteConfig_mkdirStep ff
    (mkdirStep ff w.fs (opts.migrationsAbsDirectoryPath ++ [td])).1
    (opts.seedsAbsDirectoryPath ++ [td])
  have hm2r := noRemoved_mkdirStep ff
    (mkdirStep ff w.fs (opts.migrationsAbsDirectoryPath ++ [td])).1
    (opts.seedsAbsDirectoryPath ++ [td])
  have hm2c := noCopyFailed_mkdirStep ff
    (mkdirStep ff w.fs (opts.migrationsAbsDirectoryPath ++ [td])).1
    (opts.seedsAbsDirectoryPath ++ [td])
  rcases hc3 : copyMigrations ff (mkdirStep ff (mkdirStep ff w.fs
      (opts.migrationsAbsDirectoryPath ++ [td])).1
      (opts.seedsAbsDirectoryPath ++ [td])).1 migs
      opts.migrationsAbsDirectoryPath
      (opts.migrationsAbsDirectoryPath ++ [td]) with ⟨fs3, t3, e3⟩
  have hw3 : NoWroteConfig t3 := by
    have h := noWroteConfig_copyMigrations ff (mkdirStep ff (mkdirStep ff w.fs
      (opts.migrationsAbsDirectoryPath ++ [td])).1
      (opts.seedsAbsDirectoryPath ++ [td])).1 migs
      opts.migrationsAbsDirectoryPath (opts.migrationsAbsDirectoryPath ++ [td])
    rw [hc3] at h
    exact h
  have hr3 : NoRemoved t3 := by
    have h := noRemoved_copyMigrations ff (mkdirStep ff (mkdirStep ff w.fs
      (opts.migrationsAbsDirectoryPath ++ [td])).1
      (opts.seedsAbsDirectoryPath ++ [td])).1 migs
      opts.migrationsAbsDirectoryPath (opts.migrationsAbsDirectoryPath ++ [td])
    rw [hc3] at h
    exact h
  cases e3 with
  | some err3 =>
    dsimp only
    left
    refine ⟨rfl, ?_, ?_⟩
    · intro v hv
      simp only [List.mem_append] at hv
      rcases hv with (hv | hv) | hv
      · exact hm1w v hv
      · exact hm2w v hv
      · exact hw3 v hv
    · intro q hq
      simp only [List.mem_append] at hq
      rcases hq with (hq | hq) | hq
      · exact hm1r q hq
      · exact hm2r q hq
      · exact hr3 q hq
  | none =>
  dsimp only
  have hc3f : NoCopyFailed t3 := by
    have h := @noCopyFailed_copyMigrations_of_none ff
      (mkdirStep ff (mkdirStep ff w.fs
        (opts.migrationsAbsDirectoryPath ++ [td])).1
        (opts.seedsAbsDirectoryPath ++ [td])).1 migs
      opts.migrationsAbsDirectoryPath
      (opts.migrationsAbsDirectoryPath ++ [td]) (by rw [hc3])
    rw [hc3] at h
    exact h
  rcases hc4 : copyFiles ff fs3 seeds opts.seedsAbsDirectoryPath
      (opts.seedsAbsDirectoryPath ++ [td]) with ⟨fs4, t4, e4⟩
  have hw4 : NoWroteConfig t4 := by
    have h := noWroteConfig_copyFiles ff fs3 seeds opts.seedsAbsDirectoryPath
      (opts.seedsAbsDirectoryPath ++ [td])
    rw [hc4] at h
    exact h
  have hr4 : NoRemoved t4 := by
    have h := noRemoved_copyFiles ff fs3 seeds opts.seedsAbsDirectoryPath
      (opts.seedsAbsDirectoryPath ++ [td])
    rw [hc4] at h
    exact h
  cases e4 with
  | some err4 =>
    dsimp only
    left
    refine ⟨rfl, ?_, ?_⟩
    · intro v hv
      simp only [List.mem_append] at hv
      rcases hv with ((hv | hv) | hv) | hv
      · exact hm1w v hv
      · exact hm2w v hv
      · exact hw3 v hv
      · exact hw4 v hv
    · intro q hq
      simp only [List.mem_append] at hq
      rcases hq with ((hq | hq) | hq) | hq
      · exact hm1r q hq
      · exact hm2r q hq
      · exact hr3 q hq
      · exact hr4 q hq
  | none =>
  dsimp only
  have hc4f : NoCopyFailed t4 := by
    have h := @noCopyFailed_copyFiles_of_none ff fs3 seeds
      opts.seedsAbsDirectoryPath
      (opts.seedsAbsDirectoryPath ++ [td]) (by rw [hc4])
    rw [hc4] at h
    exact h
  by_cases hwc : env.writeConfigFail = true
  · rw [if_pos hwc]
    left
    refine ⟨rfl, ?_, ?_⟩
    · intro v hv
      simp only [List.mem_append] at hv
      rcases hv with ((hv | hv) | hv) | hv
      · exact hm1w v hv
      · exact hm2w v hv
      · exact hw3 v hv
      · exact hw4 v hv
    · intro q hq
      simp only [List.mem_append] at hq
      rcases hq with ((hq | hq) | hq) | hq
      · exact hm1r q hq
      · exact hm2r q hq
      · exact hr3 q hq
      · exact hr4 q hq
  · rw [if_neg hwc]
    have hmemw : Ev.wroteConfig V3 ∈ (mkdirStep ff w.fs
        (opts.migrationsAbsDirectoryPath ++ [td])).2 ++ (mkdirStep ff (mkdirStep ff w.fs
        (opts.migrationsAbsDirectoryPath ++ [td])).1
        (opts.seedsAbsDirectoryPath ++ [td])).2 ++ t3 ++ t4 ++ [Ev.wroteConfig V3] := by
      simp
    have hc5f : NoCopyFailed ((mkdirStep ff w.fs
        (opts.migrationsAbsDirectoryPath ++ [td])).2 ++ (mkdirStep ff (mkdirStep ff w.fs
        (opts.migrationsAbsDirectoryPath ++ [td])).1
        (opts.seedsAbsDirectoryPath ++ [td])).2 ++ t3 ++ t4 ++ [Ev.wroteConfig V3]) := by
      intro p hp
      simp only [List.mem_append] at hp
      rcases hp with ((((hp | hp) | hp) | hp)) | hp
      · exact hm1c p hp
      · exact hm2c p hp
      · exact hc3f p hp
      · exact hc4f p hp
      · exact noCopyFailed_wroteConfigSingleton p hp
    rcases hr6 : removeDirectories ff fs4 opts.migrationsAbsDirectoryPath migs
      with ⟨fs6, t6, e6⟩
    have hc6f : NoCopyFailed t6 := by
      have h := noCopyFailed_removeDirectories ff fs4 migs opts.migrationsAbsDirectoryPath
      rw [hr6] at h
      exact h
    cases e6 with
    | some err6 =>
      dsimp only
      right
      refine ⟨rfl, ?_, ?_⟩
      · exact List.mem_append.mpr (Or.inl hmemw)
      · intro p hp
        rcases List.mem_append.mp hp with hp | hp
        · exact hc5f p hp
        · exact hc6f p hp
    | none =>
    dsimp only
    rcases hr7 : removeDirectories ff fs6 opts.seedsAbsDirectoryPath seeds
      with ⟨fs7, t7, e7⟩
    have hc7f : NoCopyFailed t7 := by
      have h := noCopyFailed_removeDirectories ff fs6 seeds opts.seedsAbsDirectoryPath
      rw [hr7] at h
      exact h
    cases e7 with
    | some err7 =>
      dsimp only
      right
      refine ⟨rfl, ?_, ?_⟩
      · exact List.mem_append.mpr (Or.inl (List.mem_append.mpr (Or.inl hmemw)))
      · intro p hp
        rcases List.mem_append.mp hp with hp | hp
        · rcases List.mem_append.mp hp with hp | hp
          · exact hc5f p hp
          · exact hc6f p hp
        · exact hc7f p hp
    | none =>
    dsimp only
    rcases hr8 : removeDirectories ff fs7 opts.metadataDir
      ["functions.yaml", "tables.yaml"] with ⟨fs8, t8, e8⟩
    have hc8f : NoCopyFailed t8 := by
      have h := noCopyFailed_removeDirectories ff fs7
        ["functions.yaml", "tables.yaml"] opts.metadataDir
      rw [hr8] at h
      exact h
    cases e8 with
    | some err8 =>
      dsimp only
      right
      refine ⟨rfl, ?_, ?_⟩
      · exact List.mem_append.mpr (Or.inl (List.mem_append.mpr (Or.inl
          (List.mem_append.mpr (Or.inl hmemw)))))
      · intro p hp
        rcases List.mem_append.mp hp with hp | hp
        · rcases List.mem_append.mp hp with hp | hp
          · rcases List.mem_append.mp hp with hp | hp
            · exact hc5f p hp
            · exact hc6f p hp
          · exact hc7f p hp
        · exact hc8f p hp
    | none =>
    dsimp only
    by_cases hex : env.exportMetadataFail = true
    · rw [if_pos hex]
      right
      refine ⟨rfl, ?_, ?_⟩
      · exact List.mem_append.mpr (Or.inl (List.mem_append.mpr (Or.inl
          (List.mem_append.mpr (Or.inl hmemw)))))
      · intro p hp
        rcases List.mem_append.mp hp with hp | hp
        · rcases List.mem_append.mp hp with hp | hp
          · rcases List.mem_append.mp hp with hp | hp
            · exact hc5f p hp
            · exact hc6f p hp
          · exact hc7f p hp
        · exact hc8f p hp
    · rw [if_neg hex]
      by_cases hwm : env.writeMetadataFail = true
      · rw [if_pos hwm]
        right
        refine ⟨rfl, ?_, ?_⟩
        · exact List.mem_append.mpr (Or.inl (List.mem_append.mpr (Or.inl
            (List.mem_append.mpr (Or.inl hmemw)))))
        · intro p hp
          rcases List.mem_append.mp hp with hp | hp
          · rcases List.mem_append.mp hp with hp | hp
            · rcases List.mem_append.mp hp with hp | hp
              · exact hc5f p hp
              · exact hc6f p hp
            · exact hc7f p hp
          · exact hc8f p hp
      · rw [if_neg hwm]
        right
        refine ⟨rfl, ?_, ?_⟩
        · exact List.mem_append.mpr (Or.inl (List.mem_append.mpr (Or.inl
            (List.mem_append.mpr (Or.inl (List.mem_append.mpr (Or.inl hmemw)))))))
        · intro p hp
          rcases List.mem_append.mp hp with hp | hp
          · rcases List.mem_append.mp hp with hp | hp
            · rcases List.mem_append.mp hp with hp | hp
              · rcases List.mem_append.mp hp with hp | hp
                · exact hc5f p hp
                · exact hc6f p hp
              · exact hc7f p hp
            · exact hc8f p hp
          · exact noCopyFailed_exported env.exportedFiles p hp

theorem selectTargetDatabase_trace (env : Env) (td : String) (s : List String) :
    ∀ e ∈ (selectTargetDatabase env td s).1, e = Ev.prompted := by
  unfold selectTargetDatabase
  intro e he
  by_cases h0 : td.length = 0
  · rw [if_pos h0] at he
    by_cases h1 : (s.length = 1 && s.headD "" == "default") = true
    · rw [if_pos h1] at he
      simp at he
    · rw [if_neg h1] at he
      by_cases h2 : s.length > 0
      · rw [if_pos h2] at he
        by_cases h3 : env.selectFail = true
        · rw [if_pos h3] at he
          simpa using he
        · rw [if_neg h3] at he
          simpa using he
      · rw [if_neg h2] at he
        simp at he
  · rw [if_neg h0] at he
    simp at he

/-- Lifting `restOfPipeline_cases` through the head of the pipeline: every
run of `UpdateProjectV3` either leaves the version marker untouched with no
config-write and no deletion events, or ends with the marker at V3, a
config-write event, and no failed-copy event. -/
theorem UpdateProjectV3_cases (i : Input) :
    ((UpdateProjectV3 i).world.configVersion = i.world.configVersion ∧
      NoWroteConfig (UpdateProjectV3 i).trace ∧
      NoRemoved (UpdateProjectV3 i).trace) ∨
    ((UpdateProjectV3 i).world.configVersion = V3 ∧
      Ev.wroteConfig V3 ∈ (UpdateProjectV3 i).trace ∧
      NoCopyFailed (UpdateProjectV3 i).trace) := by
  have hempty : ∀ (w : World) (e : Option String),
      (Outcome.mk w [] e).world.configVersion = w.configVersion ∧
        NoWroteConfig (Outcome.mk w [] e).trace ∧
        NoRemoved (Outcome.mk w [] e).trace := by
    intro w e
    exact ⟨rfl, fun v hv => by simp at hv, fun q hq => by simp at hq⟩
  unfold UpdateProjectV3
  dsimp only
  split
  · exact Or.inl (hempty _ _)
  · split
    · exact Or.inl (hempty _ _)
    · split
      · exact Or.inl (hempty _ _)
      · split
        · exact Or.inl (hempty _ _)
        · split
          · exact Or.inl (hempty _ _)
          · split
            · exact Or.inl (hempty _ _)
            · split
              · exact Or.inl (hempty _ _)
              · rcases hsel : selectTargetDatabase i.env i.opts.targetDatabase
                  i.env.sources with ⟨t0, rsel⟩
                have ht0 : ∀ e ∈ t0, e = Ev.prompted := by
                  have h := selectTargetDatabase_trace i.env i.opts.targetDatabase
                    i.env.sources
                  rw [hsel] at h
                  exact h
                have ht0w : NoWroteConfig t0 := fun v hv => by
                  have := ht0 _ hv
                  simp at this
                have ht0r : NoRemoved t0 := fun q hq => by
                  have := ht0 _ hq
                  simp at this
                have ht0c : NoCopyFailed t0 := fun p hp => by
                  have := ht0 _ hp
                  simp at this
                cases rsel with
                | error e =>
                  left
                  exact ⟨rfl, ht0w, ht0r⟩
                | ok td =>
                  dsimp only
                  split
                  · rcases hcs : CopyState i.sf i.tbl i.world.catalog td td
                      with ⟨cat1, ec⟩
                    cases ec with
                    | some e =>
                      left
                      exact ⟨rfl, ht0w, ht0r⟩
                    | none =>
                      dsimp only
                      split
                      · left
                        refine ⟨rfl, ?_, ?_⟩
                        · intro v hv
                          rcases List.mem_append.mp hv with hv | hv
                          · exact ht0w v hv
                          · simp only [List.mem_singleton] at hv
                            exact absurd hv (by simp)
                        · intro q hq
                          rcases List.mem_append.mp hq with hq | hq
                          · exact ht0r q hq
                          · simp only [List.mem_singleton] at hq
                            exact absurd hq (by simp)
                      · rcases restOfPipeline_cases i.opts i.env i.ff td
                          { i.world with catalog := cat1 } with
                          ⟨hv1, hv2, hv3⟩ | ⟨hv1, hv2, hv3⟩
                        · left
                          refine ⟨hv1, ?_, ?_⟩
                          · intro v hv
                            rcases List.mem_append.mp hv with hv | hv
                            · rcases List.mem_append.mp hv with hv | hv
                              · exact ht0w v hv
                              · simp only [List.mem_singleton] at hv
                                exact absurd hv (by simp)
                            · exact hv2 v hv
                          · intro q hq
                            rcases List.mem_append.mp hq with hq | hq
                            · rcases List.mem_append.mp hq with hq | hq
                              · exact ht0r q hq
                              · simp only [List.mem_singleton] at hq
                                exact absurd hq (by simp)
                            · exact hv3 q hq
                        · right
                          refine ⟨hv1, ?_, ?_⟩
                          · exact List.mem_append.mpr (Or.inr hv2)
                          · intro p hp
                            rcases List.mem_append.mp hp with hp | hp
                            · rcases List.mem_append.mp hp with hp | hp
                              · exact ht0c p hp
                              · simp only [List.mem_singleton] at hp
                                exact absurd hp (by simp)
                            · exact hv3 p hp
                  · rcases restOfPipeline_cases i.opts i.env i.ff td i.world with
                      ⟨hv1, hv2, hv3⟩ | ⟨hv1, hv2, hv3⟩
                    · left
                      refine ⟨hv1, ?_, ?_⟩
                      · intro v hv
                        rcases List.mem_append.mp hv with hv | hv
                        · exact ht0w v hv
                        · exact hv2 v hv
                      · intro q hq
                        rcases List.mem_append.mp hq with hq | hq
                        · exact ht0r q hq
                        · exact hv3 q hq
                    · right
                      refine ⟨hv1, ?_, ?_⟩
                      · exact List.mem_append.mpr (Or.inr hv2)
                      · intro p hp
                        rcases List.mem_append.mp hp with hp | hp
                        · exact ht0c p hp
                        · exact hv3 p hp

/-! ## Claim C1 -/

/-- C1: for every project tree and every fault injection that makes a copy
operation during the directory reorganization fail (i.e. whenever a
failed-copy event occurs), `UpdateProjectV3` aborts before performing any
deletion: no removal event occurs anywhere in the run, so no original
matched migration entry and no original matched seed file is removed. -/
theorem C1_copy_failure_aborts_before_deletion (i : Input) (p : Path)
    (h : Ev.copyFailed p ∈ (UpdateProjectV3 i).trace) :
    ∀ q, Ev.removed q ∉ (UpdateProjectV3 i).trace := by
  rcases UpdateProjectV3_cases i with ⟨-, -, hr⟩ | ⟨-, -, hc⟩
  · exact hr
  · exact absurd h (hc p)

/-- Witness for C1: on the concrete tree with a fault injected into the copy
of `1610000000001_add`, the failed-copy event occurs and the theorem yields
that no deletion event occurs. -/
theorem C1_copy_failure_aborts_before_deletion_witness :
    Ev.copyFailed ["migrations", "1610000000001_add"] ∈
        (UpdateProjectV3 exInputCopyFail).trace ∧
      ∀ q, Ev.removed q ∉ (UpdateProjectV3 exInputCopyFail).trace :=
  ⟨by decide, C1_copy_failure_aborts_before_deletion exInputCopyFail
    ["migrations", "1610000000001_add"] (by decide)⟩

/-! ## Claim C3 -/

/-- Counterexample to C3 as stated: with a fault injected into the deletion
of the first matched migration, the run fails during the deletion phase of
the reorganization (the original entry is still present), yet the config
version marker has already been written to V3 — so the marker is not
"written only after the whole reorganization including deletions succeeded",
and this failure does not leave the marker unchanged. -/
theorem C3_version_marker_counterexample :
    (UpdateProjectV3 exInputRemoveFail).err =
        some "removing up original migrations: RemoveAll failed" ∧
      (UpdateProjectV3 exInputRemoveFail).world.fs.stat
        ["migrations", "1610000000000_init"] = some FsNode.dir ∧
      exInputRemoveFail.world.configVersion = V2 ∧
      (UpdateProjectV3 exInputRemoveFail).world.configVersion = V3 ∧
      Ev.wroteConfig V3 ∈ (UpdateProjectV3 exInputRemoveFail).trace := by
  decide

/-- C3 as amended: the config version marker is written only after the state
transplant and the *copy phase* of the directory reorganization have
succeeded, and before the deletions — a failed copy means no config write,
any deletion happens only after the config write, and any change of the
version marker is the bump to V3 accompanied by the config-write event. -/
theorem C3_version_marker_after_copies (i : Input) :
    (∀ v, Ev.wroteConfig v ∈ (UpdateProjectV3 i).trace →
        NoCopyFailed (UpdateProjectV3 i).trace) ∧
      (∀ q, Ev.removed q ∈ (UpdateProjectV3 i).trace →
        Ev.wroteConfig V3 ∈ (UpdateProjectV3 i).trace) ∧
      ((UpdateProjectV3 i).world.configVersion ≠ i.world.configVersion →
        (UpdateProjectV3 i).world.configVersion = V3 ∧
          Ev.wroteConfig V3 ∈ (UpdateProjectV3 i).trace) := by
  rcases UpdateProjectV3_cases i with ⟨h1, h2, h3⟩ | ⟨h1, h2, h3⟩
  · refine ⟨?_, ?_, ?_⟩
    · intro v hv
      exact absurd hv (h2 v)
    · intro q hq
      exact absurd hq (h3 q)
    · intro hne
      exact absurd h1 hne
  · refine ⟨?_, ?_, ?_⟩
    · intro v _
      exact h3
    · intro q _
      exact h2
    · intro _
      exact ⟨h1, h2⟩

/-- Witness for C3 (amended): on the concrete successful run a deletion
event occurs, and the theorem yields the config-write event. -/
theorem C3_version_marker_after_copies_witness :
    Ev.removed ["migrations", "1610000000000_init"] ∈
        (UpdateProjectV3 exInput).trace ∧
      Ev.wroteConfig V3 ∈ (UpdateProjectV3 exInput).trace :=
  ⟨by decide, (C3_version_marker_after_copies exInput).2.1
    ["migrations", "1610000000000_init"] (by decide)⟩

/-! ## Claim C4 -/

/-- C4 describes intended behavior ("no step's error is suppressed; a
failure to create the target migrations or seeds directory aborts the
pipeline"), but the code drops the wrapped `Mkdir` error (the `return` is
missing at lines 138–140/144–146): with a fault injected into the creation
of the target migrations directory, the failure is recorded yet the whole
run still succeeds — the error is suppressed. -/
theorem C4_mkdir_failure_does_not_abort :
    Ev.mkdirFailed ["migrations", "default"] ∈
        (UpdateProjectV3 exInputMkdirFail).trace ∧
      (UpdateProjectV3 exInputMkdirFail).err = none := by
  decide

/-! ## Claim C5 -/

/-- Counterexample to C5 as stated: with the move-state-only flag set true,
an explicit target name, and a backend reporting zero connected sources, the
`len(sources) >= 1` guard skips both the state transplant and the early
return — the call does not return right after a transplant, and the
migrations directory and config version marker are modified. -/
theorem C5_move_state_only_counterexample :
    exInputMsoNoSources.opts.moveStateOnly = true ∧
      (UpdateProjectV3 exInputMsoNoSources).err = none ∧
      exInputMsoNoSources.world.fs.stat ["migrations", "mydb"] = none ∧
      (UpdateProjectV3 exInputMsoNoSources).world.fs.stat ["migrations", "mydb"] =
        some FsNode.dir ∧
      exInputMsoNoSources.world.configVersion = V2 ∧
      (UpdateProjectV3 exInputMsoNoSources).world.configVersion = V3 := by
  decide

/-- C5 as amended: when the move-state-only flag is set true **and the
backend reports at least one connected source**, the call returns nil
immediately after a successful state transplant, and the project tree
(hence the migrations and seeds directories) and the config version marker
are left untouched. -/
theorem C5_move_state_only_short_circuits (i : Input)
    (hmso : i.opts.moveStateOnly = true)
    (hs : 1 ≤ i.env.sources.length)
    (hmeta : i.env.hasMetadataV3 = true)
    (hic : i.env.inconsistentMetadataCheckFail = false)
    (hcons : i.env.metadataConsistent = true)
    (hforce : i.opts.force = true)
    (hgs : i.env.getSourcesFail = false)
    (t0 : List Ev) (td : String)
    (hsel : selectTargetDatabase i.env i.opts.targetDatabase i.env.sources =
      (t0, .ok td))
    (cat1 : CatalogState)
    (hcs : CopyState i.sf i.tbl i.world.catalog td td = (cat1, none)) :
    (UpdateProjectV3 i).err = none ∧
      (UpdateProjectV3 i).world.fs = i.world.fs ∧
      (UpdateProjectV3 i).world.configVersion = i.world.configVersion := by
  unfold UpdateProjectV3
  dsimp only
  rw [hmso, hmeta, hic, hcons, hforce, hgs]
  simp only [Bool.not_true, Bool.and_false, Bool.false_and, Bool.false_eq_true,
    if_false]
  rw [hsel]
  dsimp only
  rw [if_pos hs, hcs]
  dsimp only
  simp

/-- Witness for C5 (amended): on the concrete input with one connected
source and the flag set, the run returns nil with the tree and the version
marker untouched. -/
theorem C5_move_state_only_short_circuits_witness :
    (UpdateProjectV3 exInputMso).err = none ∧
      (UpdateProjectV3 exInputMso).world.fs = exInputMso.world.fs ∧
      (UpdateProjectV3 exInputMso).world.configVersion =
        exInputMso.world.configVersion :=
  C5_move_state_only_short_circuits exInputMso rfl (by decide) rfl rfl rfl rfl rfl
    [] "default" rfl
    (CopyState exInputMso.sf exInputMso.tbl exInputMso.world.catalog
      "default" "default").1 (by decide)

/-! ## Claim C6 -/

/-- C6: with no explicit target name, target-source selection fails with the
no-sources error on zero connected sources (no prompt), auto-selects a
single source named "default" with no prompt, and in every other case
requests disambiguation from the prompting collaborator exactly once. -/
theorem C6_target_selection (env : Env) (sources : List String) :
    (sources = [] →
      (selectTargetDatabase env "" sources).2 = Except.error
          "cannot determine name of database for which current migrations / seed belong to, found 0 connected databases on hasura" ∧
        (selectTargetDatabase env "" sources).1.count Ev.prompted = 0) ∧
      (sources = ["default"] →
        (selectTargetDatabase env "" sources).2 = Except.ok "default" ∧
          (selectTargetDatabase env "" sources).1.count Ev.prompted = 0) ∧
      (sources ≠ [] → sources ≠ ["default"] →
        (selectTargetDatabase env "" sources).1.count Ev.prompted = 1) := by
  refine ⟨?_, ?_, ?_⟩
  · rintro rfl
    exact ⟨rfl, rfl⟩
  · rintro rfl
    exact ⟨rfl, rfl⟩
  · intro h1 h2
    unfold selectTargetDatabase
    rw [if_pos (by rfl : ("" : String).length = 0)]
    by_cases hc : (sources.length = 1 && sources.headD "" == "default") = true
    · exfalso
      rcases sources with - | ⟨x, rest⟩
      · exact h1 rfl
      · simp only [Bool.and_eq_true, decide_eq_true_eq, beq_iff_eq] at hc
        obtain ⟨hl, hh⟩ := hc
        have hrest : rest = [] := by
          have h0 : rest.length = 0 := by simpa using hl
          exact List.length_eq_zero.mp h0
        subst hrest
        have hx : x = "default" := by simpa using hh
        exact h2 (by rw [hx])
    · rw [if_neg hc]
      have hpos : sources.length > 0 := by
        cases sources with
        | nil => exact absurd rfl h1
        | cons x rest => simp
      rw [if_pos hpos]
      by_cases hsf : env.selectFail = true
      · rw [if_pos hsf]
        rfl
      · rw [if_neg hsf]
        rfl

/-- Witness for C6: with two connected sources the prompt is requested
exactly once. -/
theorem C6_target_selection_witness :
    (selectTargetDatabase exEnv "" ["a", "b"]).1.count Ev.prompted = 1 :=
  (C6_target_selection exEnv ["a", "b"]).2.2 (by decide) (by decide)

/-! ## Claim C2 -/

theorem upsert_fold (src : List (String × String)) :
    ∀ acc : List (String × String),
    (src.map (fun e => e.1)).Nodup →
    (∀ kv ∈ src, ∀ e ∈ acc, e.1 ≠ kv.1) →
    src.foldl (fun acc2 kv => upsertSetting acc2 kv.1 kv.2) acc = acc ++ src := by
  induction src with
  | nil =>
    intro acc _ _
    simp
  | cons kv rest ih =>
    intro acc hnd hdisj
    have hfind : acc.find? (fun e => e.1 == kv.1) = none := by
      cases hf : acc.find? (fun e => e.1 == kv.1) with
      | none => rfl
      | some e =>
        have hm := List.find?_some hf
        have hmem := List.mem_of_find?_eq_some hf
        exact absurd (by simpa using hm)
          (hdisj kv (List.mem_cons_self kv rest) e hmem)
    have hup : upsertSetting acc kv.1 kv.2 = acc ++ [(kv.1, kv.2)] := by
      unfold upsertSetting
      rw [hfind]
      rfl
    rw [List.map_cons] at hnd
    have hnd0 := List.nodup_cons.mp hnd
    have hdisj' : ∀ kv2 ∈ rest, ∀ e ∈ acc ++ [(kv.1, kv.2)], e.1 ≠ kv2.1 := by
      intro kv2 hkv2 e he
      rcases List.mem_append.mp he with he | he
      · exact hdisj kv2 (List.mem_cons_of_mem kv hkv2) e he
      · rcases List.mem_singleton.mp he with rfl
        intro heq
        simp only at heq
        exact hnd0.1 (heq ▸ List.mem_map.mpr ⟨kv2, hkv2, rfl⟩)
    rw [List.foldl_cons, hup, ih (acc ++ [(kv.1, kv.2)]) hnd0.2 hdisj']
    simp

theorem CopyMigrationState_latch (tbl : HdbTable) (cat : CatalogState)
    (s d : String) :
    (CopyMigrationState tbl cat s d).1.isStateCopyCompleted =
      cat.isStateCopyCompleted := by
  unfold CopyMigrationState setMigrationsFor
  by_cases h : migrationsFor cat d ≠ []
  · rw [if_pos h]
  · rw [if_neg h]
    by_cases h2 : (cat.migrations.find? (fun e => e.1 == d)).isSome = true
    · rw [if_pos h2]
    · rw [if_neg h2]

theorem CopySettingsState_latch (src : List (String × String))
    (cat : CatalogState) :
    (CopySettingsState src cat).isStateCopyCompleted =
      cat.isStateCopyCompleted := rfl

/-- C2: a successful `CopyState` against a fresh catalog leaves the catalog
holding exactly the N migration records under the target name plus the M
settings entries (N+M entries in total, record-for-record), and sets the
`IsStateCopyCompleted` latch; if the destination already holds records under
the target name it fails with `DuplicateStateConflict` and the catalog is
unmodified; and on *any* failure (any injected store fault) the latch is
never written. -/
theorem C2_CopyState_transplant (tbl : HdbTable) (cat : CatalogState)
    (s d : String) :
    (cat.migrations = [] → cat.settings = [] →
      (tbl.settings.map (fun e => e.1)).Nodup →
      (CopyState noStoreFaults tbl cat s d).2 = none ∧
        migrationsFor (CopyState noStoreFaults tbl cat s d).1 d =
          tbl.migrations ∧
        (CopyState noStoreFaults tbl cat s d).1.settings = tbl.settings ∧
        (migrationsFor (CopyState noStoreFaults tbl cat s d).1 d).length +
            (CopyState noStoreFaults tbl cat s d).1.settings.length =
          tbl.migrations.length + tbl.settings.length ∧
        (CopyState noStoreFaults tbl cat s d).1.isStateCopyCompleted = true) ∧
      (migrationsFor cat d ≠ [] →
        CopyState noStoreFaults tbl cat s d =
          (cat, some "DuplicateStateConflict")) ∧
      (∀ sf : StoreFaults, (CopyState sf tbl cat s d).2.isSome = true →
        (CopyState sf tbl cat s d).1.isStateCopyCompleted =
          cat.isStateCopyCompleted) := by
  refine ⟨?_, ?_, ?_⟩
  · intro hm hset hnd
    obtain ⟨cm, cs, latch⟩ := cat
    simp only at hm hset
    subst hm
    subst hset
    have hCMS : CopyMigrationState tbl ⟨[], [], latch⟩ s d =
        (⟨[(d, tbl.migrations)], [], latch⟩, none) := by
      simp [CopyMigrationState, migrationsFor, setMigrationsFor]
    have hCSS : CopySettingsState tbl.settings ⟨[(d, tbl.migrations)], [], latch⟩ =
        ⟨[(d, tbl.migrations)], tbl.settings, latch⟩ := by
      simp only [CopySettingsState]
      rw [upsert_fold tbl.settings [] hnd (by simp)]
      simp
    simp only [CopyState, noStoreFaults, Bool.false_eq_true, if_false, hCMS, hCSS]
    refine ⟨trivial, ?_, trivial, ?_, trivial⟩
    · simp [migrationsFor]
    · simp [migrationsFor]
  · intro hconf
    simp only [CopyState, noStoreFaults, Bool.false_eq_true, if_false,
      CopyMigrationState, if_pos hconf]
  · intro sf hsome
    unfold CopyState at hsome ⊢
    by_cases h1 : sf.srcMigPrepareFail = true
    · simp [h1]
    · simp only [h1, Bool.false_eq_true, if_false] at hsome ⊢
      by_cases h2 : sf.dstMigPrepareFail = true
      · simp [h2]
      · simp only [h2, Bool.false_eq_true, if_false] at hsome ⊢
        by_cases h3 : sf.migStateFail = true
        · simp [h3]
        · simp only [h3, Bool.false_eq_true, if_false] at hsome ⊢
          rcases hcm : CopyMigrationState tbl cat s d with ⟨cat1, ec⟩
          have hl1 : cat1.isStateCopyCompleted = cat.isStateCopyCompleted := by
            have := CopyMigrationState_latch tbl cat s d
            rw [hcm] at this
            exact this
          simp only [hcm] at hsome ⊢
          cases ec with
          | some e =>
            dsimp only
            exact hl1
          | none =>
            dsimp only at hsome ⊢
            by_cases h4 : sf.srcSettingsPrepareFail = true
            · simp only [h4, if_true]
              exact hl1
            · simp only [h4, Bool.false_eq_true, if_false] at hsome ⊢
              by_cases h5 : sf.dstSettingsPrepareFail = true
              · simp only [h5, if_true]
                exact hl1
              · simp only [h5, Bool.false_eq_true, if_false] at hsome ⊢
                by_cases h6 : sf.settingsStateFail = true
                · simp only [h6, if_true]
                  exact hl1
                · simp only [h6, Bool.false_eq_true, if_false] at hsome ⊢
                  have hl2 : (CopySettingsState tbl.settings cat1).isStateCopyCompleted =
                      cat.isStateCopyCompleted := by
                    rw [CopySettingsState_latch]
                    exact hl1
                  by_cases h7 : sf.catalogGetFail = true
                  · simp only [h7, if_true]
                    exact hl2
                  · simp only [h7, Bool.false_eq_true, if_false] at hsome ⊢
                    by_cases h8 : sf.catalogSetFail = true
                    · simp only [h8, if_true]
                      exact hl2
                    · simp only [h8, Bool.false_eq_true, if_false] at hsome
                      exact absurd hsome (by simp)

/-- Witness for C2: a concrete table-backed store with two migration records
and one settings entry transplanted into a fresh catalog. -/
theorem C2_CopyState_transplant_witness :
    (CopyState noStoreFaults exTbl exCat "default" "default").2 = none ∧
      migrationsFor (CopyState noStoreFaults exTbl exCat "default" "default").1
          "default" = exTbl.migrations ∧
      (CopyState noStoreFaults exTbl exCat "default" "default").1.settings =
        exTbl.settings ∧
      (migrationsFor (CopyState noStoreFaults exTbl exCat "default" "default").1
            "default").length +
          (CopyState noStoreFaults exTbl exCat "default" "default").1.settings.length =
        exTbl.migrations.length + exTbl.settings.length ∧
      (CopyState noStoreFaults exTbl exCat "default"
          "default").1.isStateCopyCompleted = true :=
  (C2_CopyState_transplant exTbl exCat "default" "default").1 rfl rfl (by decide)

/-! ## Assembly of the reorganization phases -/

theorem snoc_ne_nil (l : Path) (a : String) : l ++ [a] ≠ [] := by
  simp

theorem dropLast_snoc (l : Path) (a : String) : (l ++ [a]).dropLast = l := by
  simp

theorem migDelta_keys (ff : FsFaults) (orig : Fs) (par tgt : Path) :
    ∀ (ds : List String) (e : Path × FsNode), e ∈ migDelta ff orig par tgt ds →
    ∃ d ∈ ds, underDir (tgt ++ [d]) e.1 = true := by
  intro ds
  induction ds with
  | nil =>
    intro e he
    simp [migDelta] at he
  | cons d rest ih =>
    intro e he
    rcases List.mem_append.mp he with he | he
    · refine ⟨d, List.mem_cons_self d rest, ?_⟩
      by_cases hsf : ff.statFail (par ++ [d]) = true
      · rw [if_pos hsf] at he
        simp at he
      · rw [if_neg hsf] at he
        cases hso : orig.stat (par ++ [d]) with
        | none =>
          rw [hso] at he
          simp at he
        | some n =>
          rw [hso] at he
          cases n with
          | dir => exact copyTree_keys he
          | file c =>
            rcases List.mem_singleton.mp he with rfl
            exact underDir_refl (tgt ++ [d])
    · obtain ⟨d2, hd2, hu⟩ := ih e he
      exact ⟨d2, List.mem_cons_of_mem d hd2, hu⟩

theorem seedDelta_keys (orig : Fs) (par tgt : Path) :
    ∀ (ss : List String) (e : Path × FsNode), e ∈ seedDelta orig par tgt ss →
    ∃ f ∈ ss, e.1 = tgt ++ [f] := by
  intro ss
  induction ss with
  | nil =>
    intro e he
    simp [seedDelta] at he
  | cons f rest ih =>
    intro e he
    rcases List.mem_append.mp he with he | he
    · refine ⟨f, List.mem_cons_self f rest, ?_⟩
      cases hso : orig.stat (par ++ [f]) with
      | none =>
        rw [hso] at he
        simp at he
      | some n =>
        rw [hso] at he
        cases n with
        | dir => simp at he
        | file c =>
          rcases List.mem_singleton.mp he with rfl
          rfl
    · obtain ⟨f2, hf2, hu⟩ := ih e he
      exact ⟨f2, List.mem_cons_of_mem f hf2, hu⟩

theorem getMigrationDirectoryNames_eq {ff : FsFaults} {fs : Fs} {root : Path}
    (hrd : ff.readDirFail root = false) (hdir : fs.stat root = some FsNode.dir) :
    getMigrationDirectoryNames ff fs root =
      some ((sortNames (fs.childNames root)).filter isHasuraCLIGeneratedMigration) := by
  unfold getMigrationDirectoryNames getMatchingFilesAndDirs
  rw [hrd]
  simp only [Bool.false_eq_true, if_false]
  unfold Fs.readDir
  rw [hdir]
  dsimp only
  rw [map_fst_map_pair]

theorem getSeedFiles_eq {ff : FsFaults} {fs : Fs} {root : Path}
    (hrd : ff.readDirFail root = false) (hdir : fs.stat root = some FsNode.dir) :
    getSeedFiles ff fs root =
      some ((((sortNames (fs.childNames root)).map (fun n =>
          (n, ((fs.stat (root ++ [n])).map FsNode.isDir).getD false))).filter
            (fun e => !e.2)).map (fun e => e.1)) := by
  unfold getSeedFiles
  rw [hrd]
  simp only [Bool.false_eq_true, if_false]
  unfold Fs.readDir
  rw [hdir]

theorem mem_seedList {fs : Fs} {root : Path} {f : String}
    (h : f ∈ (((sortNames (fs.childNames root)).map (fun n =>
        (n, ((fs.stat (root ++ [n])).map FsNode.isDir).getD false))).filter
          (fun e => !e.2)).map (fun e => e.1)) :
    f ∈ fs.childNames root ∧ ∃ c, fs.stat (root ++ [f]) = some (FsNode.file c) := by
  obtain ⟨e, he, rfl⟩ := List.mem_map.mp h
  have hf := List.of_mem_filter he
  have he2 := List.mem_of_mem_filter he
  obtain ⟨n, hn, hne⟩ := List.mem_map.mp he2
  cases hne
  refine ⟨mem_sortNames.mp hn, ?_⟩
  have hsome : (fs.stat (root ++ [n])).isSome = true :=
    stat_isSome_of_mem_childNames (mem_sortNames.mp hn)
  cases hso : fs.stat (root ++ [n]) with
  | none => rw [hso] at hsome; exact absurd hsome (by simp)
  | some node =>
    cases node with
    | dir =>
      rw [hso] at hf
      simp [FsNode.isDir] at hf
    | file c => exact ⟨c, rfl⟩

theorem not_underDir_both {mroot sroot : Path} (Hd1 : underDir mroot sroot = false)
    (Hd2 : underDir sroot mroot = false) {q : Path} (h1 : underDir mroot q = true)
    (h2 : underDir sroot q = true) : False := by
  rcases underDir_comparable h1 h2 with h | h
  · rw [h] at Hd1
    exact absurd Hd1 (by simp)
  · rw [h] at Hd2
    exact absurd Hd2 (by simp)

/-- The success run of the listing, mkdir and copy phases of the
reorganization, with the filesystem each phase produces in closed form. -/
theorem reorgChain (ff : FsFaults) (fs : Fs) (mroot sroot : Path) (td : String)
    (hrd1 : ff.readDirFail mroot = false)
    (hrd2 : ff.readDirFail sroot = false)
    (hmk1 : ff.mkdirFail (mroot ++ [td]) = false)
    (hmk2 : ff.mkdirFail (sroot ++ [td]) = false)
    (hcf : ∀ p, ff.copyFail p = false)
    (Hm : fs.stat mroot = some FsNode.dir)
    (Hs : fs.stat sroot = some FsNode.dir)
    (Hd1 : underDir mroot sroot = false)
    (Hd2 : underDir sroot mroot = false)
    (Hfm : ∀ q, underDir (mroot ++ [td]) q = true → fs.stat q = none)
    (Hfs2 : ∀ q, underDir (sroot ++ [td]) q = true → fs.stat q = none) :
    ∃ ds ss : List String,
      getMigrationDirectoryNames ff fs mroot = some ds ∧
      getSeedFiles ff fs sroot = some ss ∧
      ds.Nodup ∧
      (∀ d, d ∈ ds ↔
        (d ∈ fs.childNames mroot ∧ isHasuraCLIGeneratedMigration d = true)) ∧
      (∀ f, f ∈ ss → f ∈ fs.childNames sroot ∧
        ∃ c, fs.stat (sroot ++ [f]) = some (FsNode.file c)) ∧
      mkdirStep ff fs (mroot ++ [td]) =
        (⟨fs.entries ++ [(mroot ++ [td], FsNode.dir)]⟩,
          [Ev.madeDir (mroot ++ [td])]) ∧
      mkdirStep ff ⟨fs.entries ++ [(mroot ++ [td], FsNode.dir)]⟩ (sroot ++ [td]) =
        (⟨fs.entries ++ [(mroot ++ [td], FsNode.dir), (sroot ++ [td], FsNode.dir)]⟩,
          [Ev.madeDir (sroot ++ [td])]) ∧
      (copyMigrations ff
          ⟨fs.entries ++ [(mroot ++ [td], FsNode.dir), (sroot ++ [td], FsNode.dir)]⟩
          ds mroot (mroot ++ [td])).1 =
        ⟨fs.entries ++ ([(mroot ++ [td], FsNode.dir), (sroot ++ [td], FsNode.dir)] ++
          migDelta ff fs mroot (mroot ++ [td]) ds)⟩ ∧
      (copyMigrations ff
          ⟨fs.entries ++ [(mroot ++ [td], FsNode.dir), (sroot ++ [td], FsNode.dir)]⟩
          ds mroot (mroot ++ [td])).2.2 = none ∧
      (copyFiles ff
          ⟨fs.entries ++ ([(mroot ++ [td], FsNode.dir), (sroot ++ [td], FsNode.dir)] ++
            migDelta ff fs mroot (mroot ++ [td]) ds)⟩ ss sroot (sroot ++ [td])).1 =
        ⟨fs.entries ++ (([(mroot ++ [td], FsNode.dir), (sroot ++ [td], FsNode.dir)] ++
          migDelta ff fs mroot (mroot ++ [td]) ds) ++
            seedDelta fs sroot (sroot ++ [td]) ss)⟩ ∧
      (copyFiles ff
          ⟨fs.entries ++ ([(mroot ++ [td], FsNode.dir), (sroot ++ [td], FsNode.dir)] ++
            migDelta ff fs mroot (mroot ++ [td]) ds)⟩ ss sroot (sroot ++ [td])).2.2 =
        none := by
  have hmem_ds : ∀ d ∈ (sortNames (fs.childNames mroot)).filter
      isHasuraCLIGeneratedMigration, (fs.stat (mroot ++ [d])).isSome = true := by
    intro d hd
    exact stat_isSome_of_mem_childNames
      (mem_sortNames.mp (List.mem_of_mem_filter hd))
  have hdne : ∀ d ∈ (sortNames (fs.childNames mroot)).filter
      isHasuraCLIGeneratedMigration, d ≠ td := by
    intro d hd heq
    have h1 := hmem_ds d hd
    rw [heq, Hfm (mroot ++ [td]) (underDir_refl (mroot ++ [td]))] at h1
    exact absurd h1 (by simp)
  have hfne : ∀ f ∈ (((sortNames (fs.childNames sroot)).map (fun n =>
      (n, ((fs.stat (sroot ++ [n])).map FsNode.isDir).getD false))).filter
        (fun e => !e.2)).map (fun e => e.1), f ≠ td := by
    intro f hf heq
    obtain ⟨-, c, hc⟩ := mem_seedList hf
    rw [heq, Hfs2 (sroot ++ [td]) (underDir_refl (sroot ++ [td]))] at hc
    exact absurd hc (by simp)
  have hm1 : mkdirStep ff fs (mroot ++ [td]) =
      (⟨fs.entries ++ [(mroot ++ [td], FsNode.dir)]⟩,
        [Ev.madeDir (mroot ++ [td])]) := by
    unfold mkdirStep
    rw [hmk1]
    simp only [Bool.false_eq_true, if_false]
    unfold Fs.mkdir
    rw [Hfm (mroot ++ [td]) (underDir_refl (mroot ++ [td]))]
    rw [if_neg (by simp : ¬(mroot ++ [td] = []))]
    rw [dropLast_snoc, Hm]
    simp
  have hstgt_ne : mroot ++ [td] ≠ sroot ++ [td] := by
    intro heq
    refine not_underDir_both Hd1 Hd2 (q := sroot ++ [td]) ?_
      (underDir_append sroot [td])
    rw [← heq]
    exact underDir_append mroot [td]
  have hmtgt_ne_sroot : mroot ++ [td] ≠ sroot := by
    intro heq
    rw [← heq] at Hd1
    rw [underDir_append mroot [td]] at Hd1
    exact absurd Hd1 (by simp)
  have hm2 : mkdirStep ff ⟨fs.entries ++ [(mroot ++ [td], FsNode.dir)]⟩
      (sroot ++ [td]) =
      (⟨fs.entries ++ [(mroot ++ [td], FsNode.dir), (sroot ++ [td], FsNode.dir)]⟩,
        [Ev.madeDir (sroot ++ [td])]) := by
    unfold mkdirStep
    rw [hmk2]
    simp only [Bool.false_eq_true, if_false]
    unfold Fs.mkdir
    have hshow : (⟨fs.entries ++ [(mroot ++ [td], FsNode.dir)]⟩ : Fs) =
        fs.set (mroot ++ [td]) FsNode.dir := rfl
    rw [hshow, Fs.stat_set, if_neg hstgt_ne,
      Hfs2 (sroot ++ [td]) (underDir_refl (sroot ++ [td]))]
    rw [if_neg (by simp : ¬(sroot ++ [td] = []))]
    rw [dropLast_snoc, Fs.stat_set, if_neg hmtgt_ne_sroot, Hs]
    simp [Fs.set]
  have hCM := copyMigrations_eq ff mroot (mroot ++ [td])
    ((sortNames (fs.childNames mroot)).filter isHasuraCLIGeneratedMigration) fs
    [(mroot ++ [td], FsNode.dir), (sroot ++ [td], FsNode.dir)]
    (by
      intro d hd
      have h : ¬(d = td) := hdne d hd
      have h2 := underDir_false_of_concat (p := mroot) (r := ([] : Path)) h
      simpa using h2)
    (by
      intro d hd
      have h : ¬(td = d) := fun h2 => hdne d hd h2.symm
      have h2 := underDir_false_of_concat (p := mroot) (r := ([] : Path)) h
      simpa using h2)
    (fun d _ => hcf (mroot ++ [d]))
    (by
      intro e he
      rcases List.mem_cons.mp he with rfl | he
      · exact Or.inl (underDir_refl (mroot ++ [td]))
      · rcases List.mem_singleton.mp he with rfl
        refine Or.inr ?_
        intro d hd
        constructor
        · intro heq
          refine not_underDir_both Hd1 Hd2 (q := mroot ++ [d])
            (underDir_append mroot [d]) ?_
          rw [← heq]
          exact underDir_append sroot [td]
        · cases hu : underDir (mroot ++ [d]) (sroot ++ [td]) with
          | false => rfl
          | true =>
            exact absurd (underDir_of_underDir_concat hu)
              (fun h => not_underDir_both Hd1 Hd2 h (underDir_append sroot [td])))
  have hsafe : ∀ p, underDir mroot p = true →
      accSafe ((((sortNames (fs.childNames sroot)).map (fun n =>
        (n, ((fs.stat (sroot ++ [n])).map FsNode.isDir).getD false))).filter
          (fun e => !e.2)).map (fun e => e.1)) sroot (sroot ++ [td]) p := by
    intro p hp
    refine Or.inr ?_
    intro f hf
    constructor
    · intro heq
      refine not_underDir_both Hd1 Hd2 (q := p) hp ?_
      rw [heq]
      exact underDir_append sroot [f]
    · cases hu : underDir (sroot ++ [f]) p with
      | false => rfl
      | true =>
        exact absurd (underDir_of_underDir_concat hu)
          (fun h => not_underDir_both Hd1 Hd2 hp h)
  have hCF := copyFiles_eq ff sroot (sroot ++ [td])
    ((((sortNames (fs.childNames sroot)).map (fun n =>
      (n, ((fs.stat (sroot ++ [n])).map FsNode.isDir).getD false))).filter
        (fun e => !e.2)).map (fun e => e.1)) fs
    ([(mroot ++ [td], FsNode.dir), (sroot ++ [td], FsNode.dir)] ++
      migDelta ff fs mroot (mroot ++ [td])
        ((sortNames (fs.childNames mroot)).filter isHasuraCLIGeneratedMigration))
    (by
      intro f hf
      have h : ¬(td = f) := fun h2 => hfne f hf h2.symm
      have h2 := underDir_false_of_concat (p := sroot) (r := ([] : Path)) h
      simpa using h2)
    (fun f _ => hcf (sroot ++ [f]))
    (fun f hf => (mem_seedList hf).2)
    (by
      intro e he
      rcases List.mem_append.mp he with he | he
      · rcases List.mem_cons.mp he with rfl | he
        · exact hsafe (mroot ++ [td]) (underDir_append mroot [td])
        · rcases List.mem_singleton.mp he with rfl
          exact Or.inl (underDir_refl (sroot ++ [td]))
      · obtain ⟨d, hd, hu⟩ := migDelta_keys ff fs mroot (mroot ++ [td]) _ e he
        exact hsafe e.1 (underDir_of_underDir_concat
          (underDir_of_underDir_concat hu)))
  exact ⟨(sortNames (fs.childNames mroot)).filter isHasuraCLIGeneratedMigration,
    (((sortNames (fs.childNames sroot)).map (fun n =>
      (n, ((fs.stat (sroot ++ [n])).map FsNode.isDir).getD false))).filter
        (fun e => !e.2)).map (fun e => e.1),
    getMigrationDirectoryNames_eq hrd1 Hm, getSeedFiles_eq hrd2 Hs,
    List.Nodup.filter _ (sortNames_nodup (childNames_nodup fs mroot)),
    (fun d => by rw [List.mem_filter, mem_sortNames]),
    (fun f hf => mem_seedList hf),
    hm1, hm2, hCM.1, hCM.2, hCF.1, hCF.2⟩

theorem migSeg_keys {ff : FsFaults} {orig : Fs} {par tgt : Path} {d0 : String}
    {e : Path × FsNode}
    (he : e ∈ (if ff.statFail (par ++ [d0]) then ([] : List (Path × FsNode))
      else
        match orig.stat (par ++ [d0]) with
        | none => []
        | some .dir => copyTree orig (par ++ [d0]) (tgt ++ [d0])
        | some (.file c) => [(tgt ++ [d0], .file c)])) :
    underDir (tgt ++ [d0]) e.1 = true := by
  have he2 : e ∈ migDelta ff orig par tgt [d0] := by
    simp only [migDelta, List.append_nil]
    exact he
  obtain ⟨d2, hd2, hu⟩ := migDelta_keys ff orig par tgt [d0] e he2
  rcases List.mem_singleton.mp hd2 with rfl
  exact hu

theorem migDelta_stat (ff : FsFaults) (orig : Fs) (par tgt : Path) (d : String)
    (hleaf : ∀ n c r, orig.stat (par ++ [n]) = some (.file c) → r ≠ [] →
      orig.stat (par ++ [n] ++ r) = none)
    (hsf : ff.statFail (par ++ [d]) = false)
    (hsome : (orig.stat (par ++ [d])).isSome = true) :
    ∀ ds : List String, ds.Nodup → d ∈ ds →
    ∀ rest, statE (migDelta ff orig par tgt ds) (tgt ++ [d] ++ rest) =
      orig.stat (par ++ [d] ++ rest) := by
  intro ds
  induction ds with
  | nil =>
    intro _ hd
    exact absurd hd (List.not_mem_nil d)
  | cons d0 rest0 ih =>
    intro hnd hd rest
    have hnd0 := List.nodup_cons.mp hnd
    unfold migDelta
    rw [statE_append]
    by_cases hd0 : d = d0
    · subst hd0
      have htail : statE (migDelta ff orig par tgt rest0) (tgt ++ [d] ++ rest) =
          none := by
        apply statE_none_of_keys_ne
        intro e he heq
        obtain ⟨d2, hd2, hu⟩ := migDelta_keys ff orig par tgt rest0 e he
        rw [heq] at hu
        have : d2 = d := underDir_concat_concat hu
        rw [this] at hd2
        exact hnd0.1 hd2
      rw [htail]
      rw [hsf]
      simp only [Bool.false_eq_true, if_false]
      cases hso : orig.stat (par ++ [d]) with
      | none =>
        rw [hso] at hsome
        exact absurd hsome (by simp)
      | some n =>
        cases n with
        | dir =>
          rw [statE_copyTree]
          rw [if_pos (underDir_append (tgt ++ [d]) rest)]
          rw [List.drop_left]
          rfl
        | file c =>
          cases rest with
          | nil =>
            simp only [List.append_nil]
            simp [statE, hso]
          | cons r rs =>
            have hkeyne : tgt ++ [d] ≠ tgt ++ [d] ++ (r :: rs) := by
              intro heq
              have := congrArg List.length heq
              simp at this
            have hnone : statE [(tgt ++ [d], FsNode.file c)]
                (tgt ++ [d] ++ (r :: rs)) = none :=
              statE_none_of_keys_ne (by
                intro e he
                rcases List.mem_singleton.mp he with rfl
                exact hkeyne)
            rw [hnone]
            exact (hleaf d c (r :: rs) hso (by simp)).symm
    · have hdr : d ∈ rest0 := by
        rcases List.mem_cons.mp hd with h | h
        · exact absurd h hd0
        · exact h
      have htail := ih hnd0.2 hdr rest
      rw [htail]
      cases hso : orig.stat (par ++ [d] ++ rest) with
      | some n => rfl
      | none =>
        apply statE_none_of_keys_ne
        intro e he heq
        have hu := @migSeg_keys ff orig par tgt d0 e he
        rw [heq] at hu
        exact hd0 (underDir_concat_concat hu).symm

theorem migDelta_stat_skipped (ff : FsFaults) (orig : Fs) (par tgt : Path)
    (d : String) (hsf : ff.statFail (par ++ [d]) = true) :
    ∀ ds : List String, ∀ rest,
    statE (migDelta ff orig par tgt ds) (tgt ++ [d] ++ rest) = none := by
  intro ds
  induction ds with
  | nil =>
    intro rest
    simp [migDelta, statE]
  | cons d0 rest0 ih =>
    intro rest
    unfold migDelta
    rw [statE_append, ih rest]
    by_cases hd0 : d0 = d
    · subst hd0
      rw [hsf]
      simp [statE]
    · apply statE_none_of_keys_ne
      intro e he heq
      have hu := @migSeg_keys ff orig par tgt d0 e he
      rw [heq] at hu
      exact hd0 (underDir_concat_concat hu)

theorem statE_removeFilter (ds : List String) (par : Path)
    (l : List (Path × FsNode)) (q : Path) :
    statE (l.filter (fun e => ds.all (fun d => !(underDir (par ++ [d]) e.1)))) q =
      if ds.all (fun d => !(underDir (par ++ [d]) q)) then statE l q else none :=
  statE_filter (fun k => ds.all (fun d => !(underDir (par ++ [d]) k))) l q

/-- C7: for every matched migration entry `d` (an immediate child of the
migrations root whose name matches the 13-digit convention, i.e. a member of
the computed move list), after the reorganization succeeds the original path
(and its whole subtree) no longer exists, and the corresponding path under
the target-named subtree holds exactly the nodes — byte-identical file
contents included — that the original held. -/
theorem C7_reorganize_roundtrip (fs : Fs) (mroot sroot mdDir : Path)
    (td : String) (ds : List String) (d : String)
    (Hm : fs.stat mroot = some FsNode.dir)
    (Hs : fs.stat sroot = some FsNode.dir)
    (Hd1 : underDir mroot sroot = false)
    (Hd2 : underDir sroot mroot = false)
    (Hd3 : underDir mdDir mroot = false)
    (Hd4 : underDir mroot mdDir = false)
    (Hfm : ∀ q, underDir (mroot ++ [td]) q = true → fs.stat q = none)
    (Hfs2 : ∀ q, underDir (sroot ++ [td]) q = true → fs.stat q = none)
    (Hleaf : ∀ n c r, fs.stat (mroot ++ [n]) = some (FsNode.file c) → r ≠ [] →
      fs.stat (mroot ++ [n] ++ r) = none)
    (hds : getMigrationDirectoryNames noFsFaults fs mroot = some ds)
    (hd : d ∈ ds) :
    (Reorganize noFsFaults fs mroot sroot mdDir td).2.2 = none ∧
      (∀ rest, (Reorganize noFsFaults fs mroot sroot mdDir td).1.stat
        (mroot ++ [d] ++ rest) = none) ∧
      (∀ rest, (Reorganize noFsFaults fs mroot sroot mdDir td).1.stat
        (mroot ++ [td] ++ [d] ++ rest) = fs.stat (mroot ++ [d] ++ rest)) := by
  obtain ⟨ds2, ss, hg, hsd, hnodup, hmemiff, hseed, hm1, hm2, hCM1, hCM2, hCF1, hCF2⟩ :=
    reorgChain noFsFaults fs mroot sroot td rfl rfl rfl rfl (fun p => rfl)
      Hm Hs Hd1 Hd2 Hfm Hfs2
  rw [hg] at hds
  have hds2 : ds2 = ds := Option.some.inj hds
  subst hds2
  have hdne : ∀ x ∈ ds2, x ≠ td := by
    intro x hx heq
    have h1 := stat_isSome_of_mem_childNames ((hmemiff x).mp hx).1
    rw [heq, Hfm (mroot ++ [td]) (underDir_refl (mroot ++ [td]))] at h1
    exact absurd h1 (by simp)
  have hCMt : copyMigrations noFsFaults
      ⟨fs.entries ++ [(mroot ++ [td], FsNode.dir), (sroot ++ [td], FsNode.dir)]⟩
      ds2 mroot (mroot ++ [td]) =
      (⟨fs.entries ++ ([(mroot ++ [td], FsNode.dir), (sroot ++ [td], FsNode.dir)] ++
        migDelta noFsFaults fs mroot (mroot ++ [td]) ds2)⟩,
       (copyMigrations noFsFaults
        ⟨fs.entries ++ [(mroot ++ [td], FsNode.dir), (sroot ++ [td], FsNode.dir)]⟩
        ds2 mroot (mroot ++ [td])).2.1, none) := by
    exact Prod.ext hCM1 (Prod.ext rfl hCM2)
  have hCFt : copyFiles noFsFaults
      ⟨fs.entries ++ ([(mroot ++ [td], FsNode.dir), (sroot ++ [td], FsNode.dir)] ++
        migDelta noFsFaults fs mroot (mroot ++ [td]) ds2)⟩ ss sroot (sroot ++ [td]) =
      (⟨fs.entries ++ (([(mroot ++ [td], FsNode.dir), (sroot ++ [td], FsNode.dir)] ++
        migDelta noFsFaults fs mroot (mroot ++ [td]) ds2) ++
          seedDelta fs sroot (sroot ++ [td]) ss)⟩,
       (copyFiles noFsFaults
        ⟨fs.entries ++ ([(mroot ++ [td], FsNode.dir), (sroot ++ [td], FsNode.dir)] ++
          migDelta noFsFaults fs mroot (mroot ++ [td]) ds2)⟩ ss sroot
            (sroot ++ [td])).2.1, none) := by
    exact Prod.ext hCF1 (Prod.ext rfl hCF2)
  unfold Reorganize
  rw [hg, hsd]
  dsimp only
  rw [hm1]
  dsimp only
  rw [hm2]
  dsimp only
  rw [hCMt]
  dsimp only
  rw [hCFt]
  dsimp only
  rw [removeDirectories_eq noFsFaults mroot ds2 _ (fun x _ => rfl)]
  dsimp only
  rw [removeDirectories_eq noFsFaults sroot ss _ (fun x _ => rfl)]
  dsimp only
  rw [removeDirectories_eq noFsFaults mdDir ["functions.yaml", "tables.yaml"] _
    (fun x _ => rfl)]
  dsimp only
  refine ⟨rfl, ?_, ?_⟩
  · intro rest
    show statE _ _ = _
    rw [statE_removeFilter, statE_removeFilter, statE_removeFilter]
    have hk1 : (ds2.all (fun x => !(underDir (mroot ++ [x])
        (mroot ++ [d] ++ rest)))) = false := by
      cases h : ds2.all (fun x => !(underDir (mroot ++ [x]) (mroot ++ [d] ++ rest))) with
      | false => rfl
      | true =>
        have h2 := List.all_eq_true.mp h d hd
        rw [underDir_append (mroot ++ [d]) rest] at h2
        exact absurd h2 (by simp)
    rw [hk1]
    by_cases h3 : (["functions.yaml", "tables.yaml"].all (fun y =>
        !(underDir (mdDir ++ [y]) (mroot ++ [d] ++ rest)))) = true
    · rw [if_pos h3]
      by_cases h2 : (ss.all (fun f => !(underDir (sroot ++ [f])
          (mroot ++ [d] ++ rest)))) = true
      · rw [if_pos h2]
        simp
      · rw [if_neg h2]
    · rw [if_neg h3]
  · intro rest
    have hq'm : underDir mroot (mroot ++ [td] ++ [d] ++ rest) = true := by
      have h := underDir_append mroot ([td] ++ ([d] ++ rest))
      simpa [List.append_assoc] using h
    have hq'tgt : underDir (mroot ++ [td]) (mroot ++ [td] ++ [d] ++ rest) = true := by
      have h := underDir_append (mroot ++ [td]) ([d] ++ rest)
      simpa [List.append_assoc] using h
    show statE _ _ = _
    rw [statE_removeFilter, statE_removeFilter, statE_removeFilter]
    have hk1 : (ds2.all (fun x => !(underDir (mroot ++ [x])
        (mroot ++ [td] ++ [d] ++ rest)))) = true := by
      rw [List.all_eq_true]
      intro x hx
      cases hu : underDir (mroot ++ [x]) (mroot ++ [td] ++ [d] ++ rest) with
      | false => rfl
      | true =>
        have hu2 : underDir (mroot ++ [x]) (mroot ++ [td] ++ ([d] ++ rest)) = true := by
          have h := hu
          simpa [List.append_assoc] using h
        exact absurd (underDir_concat_concat hu2) (hdne x hx)
    have hk2 : (ss.all (fun f => !(underDir (sroot ++ [f])
        (mroot ++ [td] ++ [d] ++ rest)))) = true := by
      rw [List.all_eq_true]
      intro f hf
      cases hu : underDir (sroot ++ [f]) (mroot ++ [td] ++ [d] ++ rest) with
      | false => rfl
      | true =>
        exact absurd (underDir_of_underDir_concat hu)
          (fun h => not_underDir_both Hd1 Hd2 hq'm h)
    have hk3 : (["functions.yaml", "tables.yaml"].all (fun y =>
        !(underDir (mdDir ++ [y]) (mroot ++ [td] ++ [d] ++ rest)))) = true := by
      rw [List.all_eq_true]
      intro y hy
      cases hu : underDir (mdDir ++ [y]) (mroot ++ [td] ++ [d] ++ rest) with
      | false => rfl
      | true =>
        exact absurd (underDir_of_underDir_concat hu)
          (fun h => not_underDir_both Hd3 Hd4 h hq'm)
    rw [hk3, if_pos rfl, hk2, if_pos rfl, hk1, if_pos rfl]
    rw [statE_append, statE_append]
    have hseedNone : statE (seedDelta fs sroot (sroot ++ [td]) ss)
        (mroot ++ [td] ++ [d] ++ rest) = none := by
      apply statE_none_of_keys_ne
      intro e he heq
      obtain ⟨f, hf, hkey⟩ := seedDelta_keys fs sroot (sroot ++ [td]) ss e he
      rw [heq] at hkey
      have husr : underDir sroot (mroot ++ [td] ++ [d] ++ rest) = true := by
        rw [hkey]
        have h := underDir_append sroot ([td] ++ [f])
        simpa [List.append_assoc] using h
      exact not_underDir_both Hd1 Hd2 hq'm husr
    rw [statE_append, hseedNone]
    have hmig := migDelta_stat noFsFaults fs mroot (mroot ++ [td]) d Hleaf rfl
      (stat_isSome_of_mem_childNames ((hmemiff d).mp hd).1) ds2 hnodup hd rest
    rw [hmig]
    have hdirsNone : statE
        [(mroot ++ [td], FsNode.dir), (sroot ++ [td], FsNode.dir)]
        (mroot ++ [td] ++ [d] ++ rest) = none := by
      apply statE_none_of_keys_ne
      intro e he heq
      rcases List.mem_cons.mp he with rfl | he
      · have hkey : mroot ++ [td] = mroot ++ [td] ++ [d] ++ rest := heq
        have h2 := congrArg List.length hkey
        simp only [List.length_append, List.length_cons, List.length_nil] at h2
        omega
      · rcases List.mem_singleton.mp he with rfl
        have hkey : sroot ++ [td] = mroot ++ [td] ++ [d] ++ rest := heq
        have husr : underDir sroot (mroot ++ [td] ++ [d] ++ rest) = true := by
          rw [← hkey]
          exact underDir_append sroot [td]
        exact not_underDir_both Hd1 Hd2 hq'm husr
    rw [hdirsNone]
    have hbaseNone : statE fs.entries (mroot ++ [td] ++ [d] ++ rest) = none :=
      Hfm (mroot ++ [td] ++ [d] ++ rest) hq'tgt
    rw [hbaseNone]
    cases fs.stat (mroot ++ [d] ++ rest) with
    | none => rfl
    | some n => rfl

theorem stat_none_of_no_key_under {fs : Fs} {tgt : Path}
    (h : fs.entries.all (fun e => !(underDir tgt e.1)) = true) :
    ∀ q, underDir tgt q = true → fs.stat q = none := by
  intro q hq
  show statE fs.entries q = none
  apply statE_none_of_keys_ne
  intro e he heq
  have h2 := List.all_eq_true.mp h e he
  rw [heq, hq] at h2
  exact absurd h2 (by simp)

theorem hleaf_of_leafOK {fs : Fs} {mroot : Path} (h : leafOK fs mroot = true) :
    ∀ n c r, fs.stat (mroot ++ [n]) = some (FsNode.file c) → r ≠ [] →
      fs.stat (mroot ++ [n] ++ r) = none := by
  intro n c r hf hr
  show statE fs.entries (mroot ++ [n] ++ r) = none
  apply statE_none_of_keys_ne
  intro e he heq
  have h2 := List.all_eq_true.mp h e he
  rw [heq] at h2
  have hu : underDir mroot (mroot ++ [n] ++ r) = true := by
    have h3 := underDir_append mroot ([n] ++ r)
    simpa [List.append_assoc] using h3
  have hlen : mroot.length + 1 < (mroot ++ [n] ++ r).length := by
    cases r with
    | nil => exact absurd rfl hr
    | cons a as =>
      simp only [List.length_append, List.length_cons, List.length_nil]
      omega
  have hdrop : (mroot ++ [n] ++ r).drop mroot.length = n :: r := by
    rw [List.append_assoc, List.drop_left]
    rfl
  rw [hu, hdrop] at h2
  dsimp only at h2
  rw [hf] at h2
  simp [hlen] at h2
  exact hr h2

/-- Witness for C7: the concrete tree `exFs`, migrations root
`["migrations"]`, target name `"default"`, matched entry
`"1610000000000_init"`. -/
theorem C7_reorganize_roundtrip_witness :
    (Reorganize noFsFaults exFs ["migrations"] ["seeds"] ["metadata"]
      "default").2.2 = none ∧
      (∀ rest, (Reorganize noFsFaults exFs ["migrations"] ["seeds"] ["metadata"]
        "default").1.stat (["migrations"] ++ ["1610000000000_init"] ++ rest) =
          none) ∧
      (∀ rest, (Reorganize noFsFaults exFs ["migrations"] ["seeds"] ["metadata"]
        "default").1.stat
          (["migrations"] ++ ["default"] ++ ["1610000000000_init"] ++ rest) =
        exFs.stat (["migrations"] ++ ["1610000000000_init"] ++ rest)) :=
  C7_reorganize_roundtrip exFs ["migrations"] ["seeds"] ["metadata"] "default"
    ["1610000000000_init", "1610000000001_add"] "1610000000000_init"
    (by decide) (by decide) (by decide) (by decide) (by decide) (by decide)
    (stat_none_of_no_key_under (by decide))
    (stat_none_of_no_key_under (by decide))
    (hleaf_of_leafOK (by decide))
    (by decide) (by decide)

/-! ## Claim C9 -/

/-- C9: a matched migration entry whose `Stat` call is fault-injected to
fail during the copy phase is silently skipped — the copy phase still
reports success and the whole reorganization returns no error — yet the
deletion phase removes the entry anyway: afterwards the entry (with its
whole subtree) is gone from the original path and nothing was ever written
for it under the target subtree. -/
theorem C9_stat_failure_skips_copy_but_deletes (fs : Fs)
    (mroot sroot mdDir : Path) (td : String) (ds : List String) (d : String)
    (ff : FsFaults)
    (hff : ff = { noFsFaults with
      statFail := fun p => decide (p = mroot ++ [d]) })
    (Hm : fs.stat mroot = some FsNode.dir)
    (Hs : fs.stat sroot = some FsNode.dir)
    (Hd1 : underDir mroot sroot = false)
    (Hd2 : underDir sroot mroot = false)
    (Hd3 : underDir mdDir mroot = false)
    (Hd4 : underDir mroot mdDir = false)
    (Hfm : ∀ q, underDir (mroot ++ [td]) q = true → fs.stat q = none)
    (Hfs2 : ∀ q, underDir (sroot ++ [td]) q = true → fs.stat q = none)
    (hds : getMigrationDirectoryNames ff fs mroot = some ds)
    (hd : d ∈ ds) :
    (Reorganize ff fs mroot sroot mdDir td).2.2 = none ∧
      (∀ rest, (Reorganize ff fs mroot sroot mdDir td).1.stat
        (mroot ++ [d] ++ rest) = none) ∧
      (∀ rest, (Reorganize ff fs mroot sroot mdDir td).1.stat
        (mroot ++ [td] ++ [d] ++ rest) = none) := by
  subst hff
  obtain ⟨ds2, ss, hg, hsd, hnodup, hmemiff, hseed, hm1, hm2, hCM1, hCM2, hCF1, hCF2⟩ :=
    reorgChain { noFsFaults with statFail := fun p => decide (p = mroot ++ [d]) }
      fs mroot sroot td rfl rfl rfl rfl (fun p => rfl) Hm Hs Hd1 Hd2 Hfm Hfs2
  rw [hg] at hds
  have hds2 : ds2 = ds := Option.some.inj hds
  subst hds2
  have hdne : ∀ x ∈ ds2, x ≠ td := by
    intro x hx heq
    have h1 := stat_isSome_of_mem_childNames ((hmemiff x).mp hx).1
    rw [heq, Hfm (mroot ++ [td]) (underDir_refl (mroot ++ [td]))] at h1
    exact absurd h1 (by simp)
  have hCMt : copyMigrations
      { noFsFaults with statFail := fun p => decide (p = mroot ++ [d]) }
      ⟨fs.entries ++ [(mroot ++ [td], FsNode.dir), (sroot ++ [td], FsNode.dir)]⟩
      ds2 mroot (mroot ++ [td]) =
      (⟨fs.entries ++ ([(mroot ++ [td], FsNode.dir), (sroot ++ [td], FsNode.dir)] ++
        migDelta { noFsFaults with statFail := fun p => decide (p = mroot ++ [d]) }
          fs mroot (mroot ++ [td]) ds2)⟩,
       (copyMigrations
        { noFsFaults with statFail := fun p => decide (p = mroot ++ [d]) }
        ⟨fs.entries ++ [(mroot ++ [td], FsNode.dir), (sroot ++ [td], FsNode.dir)]⟩
        ds2 mroot (mroot ++ [td])).2.1, none) := by
    exact Prod.ext hCM1 (Prod.ext rfl hCM2)
  have hCFt : copyFiles
      { noFsFaults with statFail := fun p => decide (p = mroot ++ [d]) }
      ⟨fs.entries ++ ([(mroot ++ [td], FsNode.dir), (sroot ++ [td], FsNode.dir)] ++
        migDelta { noFsFaults with statFail := fun p => decide (p = mroot ++ [d]) }
          fs mroot (mroot ++ [td]) ds2)⟩ ss sroot (sroot ++ [td]) =
      (⟨fs.entries ++ (([(mroot ++ [td], FsNode.dir), (sroot ++ [td], FsNode.dir)] ++
        migDelta { noFsFaults with statFail := fun p => decide (p = mroot ++ [d]) }
          fs mroot (mroot ++ [td]) ds2) ++
          seedDelta fs sroot (sroot ++ [td]) ss)⟩,
       (copyFiles
        { noFsFaults with statFail := fun p => decide (p = mroot ++ [d]) }
        ⟨fs.entries ++ ([(mroot ++ [td], FsNode.dir), (sroot ++ [td], FsNode.dir)] ++
          migDelta { noFsFaults with statFail := fun p => decide (p = mroot ++ [d]) }
            fs mroot (mroot ++ [td]) ds2)⟩ ss sroot
            (sroot ++ [td])).2.1, none) := by
    exact Prod.ext hCF1 (Prod.ext rfl hCF2)
  unfold Reorganize
  rw [hg, hsd]
  dsimp only
  rw [hm1]
  dsimp only
  rw [hm2]
  dsimp only
  rw [hCMt]
  dsimp only
  rw [hCFt]
  dsimp only
  rw [removeDirectories_eq _ mroot ds2 _ (fun x _ => rfl)]
  dsimp only
  rw [removeDirectories_eq _ sroot ss _ (fun x _ => rfl)]
  dsimp only
  rw [removeDirectories_eq _ mdDir ["functions.yaml", "tables.yaml"] _
    (fun x _ => rfl)]
  dsimp only
  refine ⟨rfl, ?_, ?_⟩
  · intro rest
    show statE _ _ = _
    rw [statE_removeFilter, statE_removeFilter, statE_removeFilter]
    have hk1 : (ds2.all (fun x => !(underDir (mroot ++ [x])
        (mroot ++ [d] ++ rest)))) = false := by
      cases h : ds2.all (fun x => !(underDir (mroot ++ [x]) (mroot ++ [d] ++ rest))) with
      | false => rfl
      | true =>
        have h2 := List.all_eq_true.mp h d hd
        rw [underDir_append (mroot ++ [d]) rest] at h2
        exact absurd h2 (by simp)
    rw [hk1]
    by_cases h3 : (["functions.yaml", "tables.yaml"].all (fun y =>
        !(underDir (mdDir ++ [y]) (mroot ++ [d] ++ rest)))) = true
    · rw [if_pos h3]
      by_cases h2 : (ss.all (fun f => !(underDir (sroot ++ [f])
          (mroot ++ [d] ++ rest)))) = true
      · rw [if_pos h2]
        simp
      · rw [if_neg h2]
    · rw [if_neg h3]
  · intro rest
    have hq'm : underDir mroot (mroot ++ [td] ++ [d] ++ rest) = true := by
      have h := underDir_append mroot ([td] ++ ([d] ++ rest))
      simpa [List.append_assoc] using h
    have hq'tgt : underDir (mroot ++ [td]) (mroot ++ [td] ++ [d] ++ rest) = true := by
      have h := underDir_append (mroot ++ [td]) ([d] ++ rest)
      simpa [List.append_assoc] using h
    show statE _ _ = _
    rw [statE_removeFilter, statE_removeFilter, statE_removeFilter]
    have hk1 : (ds2.all (fun x => !(underDir (mroot ++ [x])
        (mroot ++ [td] ++ [d] ++ rest)))) = true := by
      rw [List.all_eq_true]
      intro x hx
      cases hu : underDir (mroot ++ [x]) (mroot ++ [td] ++ [d] ++ rest) with
      | false => rfl
      | true =>
        have hu2 : underDir (mroot ++ [x]) (mroot ++ [td] ++ ([d] ++ rest)) = true := by
          have h := hu
          simpa [List.append_assoc] using h
        exact absurd (underDir_concat_concat hu2) (hdne x hx)
    have hk2 : (ss.all (fun f => !(underDir (sroot ++ [f])
        (mroot ++ [td] ++ [d] ++ rest)))) = true := by
      rw [List.all_eq_true]
      intro f hf
      cases hu : underDir (sroot ++ [f]) (mroot ++ [td] ++ [d] ++ rest) with
      | false => rfl
      | true =>
        exact absurd (underDir_of_underDir_concat hu)
          (fun h => not_underDir_both Hd1 Hd2 hq'm h)
    have hk3 : (["functions.yaml", "tables.yaml"].all (fun y =>
        !(underDir (mdDir ++ [y]) (mroot ++ [td] ++ [d] ++ rest)))) = true := by
      rw [List.all_eq_true]
      intro y hy
      cases hu : underDir (mdDir ++ [y]) (mroot ++ [td] ++ [d] ++ rest) with
      | false => rfl
      | true =>
        exact absurd (underDir_of_underDir_concat hu)
          (fun h => not_underDir_both Hd3 Hd4 h hq'm)
    rw [hk3, if_pos rfl, hk2, if_pos rfl, hk1, if_pos rfl]
    rw [statE_append, statE_append]
    have hseedNone : statE (seedDelta fs sroot (sroot ++ [td]) ss)
        (mroot ++ [td] ++ [d] ++ rest) = none := by
      apply statE_none_of_keys_ne
      intro e he heq
      obtain ⟨f, hf, hkey⟩ := seedDelta_keys fs sroot (sroot ++ [td]) ss e he
      rw [heq] at hkey
      have husr : underDir sroot (mroot ++ [td] ++ [d] ++ rest) = true := by
        rw [hkey]
        have h := underDir_append sroot ([td] ++ [f])
        simpa [List.append_assoc] using h
      exact not_underDir_both Hd1 Hd2 hq'm husr
    rw [statE_append, hseedNone]
    have hmig := migDelta_stat_skipped
      { noFsFaults with statFail := fun p => decide (p = mroot ++ [d]) }
      fs mroot (mroot ++ [td]) d (by simp) ds2 rest
    rw [hmig]
    have hdirsNone : statE
        [(mroot ++ [td], FsNode.dir), (sroot ++ [td], FsNode.dir)]
        (mroot ++ [td] ++ [d] ++ rest) = none := by
      apply statE_none_of_keys_ne
      intro e he heq
      rcases List.mem_cons.mp he with rfl | he
      · have hkey : mroot ++ [td] = mroot ++ [td] ++ [d] ++ rest := heq
        have h2 := congrArg List.length hkey
        simp only [List.length_append, List.length_cons, List.length_nil] at h2
        omega
      · rcases List.mem_singleton.mp he with rfl
        have hkey : sroot ++ [td] = mroot ++ [td] ++ [d] ++ rest := heq
        have husr : underDir sroot (mroot ++ [td] ++ [d] ++ rest) = true := by
          rw [← hkey]
          exact underDir_append sroot [td]
        exact not_underDir_both Hd1 Hd2 hq'm husr
    rw [hdirsNone]
    have hbaseNone : statE fs.entries (mroot ++ [td] ++ [d] ++ rest) = none :=
      Hfm (mroot ++ [td] ++ [d] ++ rest) hq'tgt
    rw [hbaseNone]

/-- Witness for C9: with `Stat` fault-injected on
`migrations/1610000000000_init`, the reorganization of `exFs` succeeds, the
entry is deleted, and nothing for it appears under `migrations/default`. -/
theorem C9_stat_failure_skips_copy_but_deletes_witness :
    (Reorganize { noFsFaults with
        statFail := fun p => decide (p = ["migrations"] ++ ["1610000000000_init"]) }
      exFs ["migrations"] ["seeds"] ["metadata"] "default").2.2 = none ∧
      (∀ rest, (Reorganize { noFsFaults with
          statFail := fun p => decide (p = ["migrations"] ++ ["1610000000000_init"]) }
        exFs ["migrations"] ["seeds"] ["metadata"] "default").1.stat
          (["migrations"] ++ ["1610000000000_init"] ++ rest) = none) ∧
      (∀ rest, (Reorganize { noFsFaults with
          statFail := fun p => decide (p = ["migrations"] ++ ["1610000000000_init"]) }
        exFs ["migrations"] ["seeds"] ["metadata"] "default").1.stat
          (["migrations"] ++ ["default"] ++ ["1610000000000_init"] ++ rest) =
            none) :=
  C9_stat_failure_skips_copy_but_deletes exFs ["migrations"] ["seeds"]
    ["metadata"] "default" ["1610000000000_init", "1610000000001_add"]
    "1610000000000_init" _ rfl (by decide) (by decide) (by decide) (by decide)
    (by decide) (by decide)
    (stat_none_of_no_key_under (by decide))
    (stat_none_of_no_key_under (by decide))
    (by decide) (by decide)

/-! ## Claim C8 -/

/-- Counterexample to C8 as stated: on `exFs8` no immediate child of the
migrations root matches the convention, yet the reorganization does more
than create the two target subdirectories — it moves the seed file
`seeds/seed1.sql` under `seeds/default/` and deletes the original. -/
theorem C8_frame_counterexample :
    ((exFs8.childNames ["migrations"]).all
      (fun n => !(isHasuraCLIGeneratedMigration n))) = true ∧
      (Reorganize noFsFaults exFs8 ["migrations"] ["seeds"] ["metadata"]
        "default").2.2 = none ∧
      exFs8.stat ["seeds", "seed1.sql"] = some (FsNode.file [7]) ∧
      (Reorganize noFsFaults exFs8 ["migrations"] ["seeds"] ["metadata"]
        "default").1.stat ["seeds", "seed1.sql"] = none ∧
      (Reorganize noFsFaults exFs8 ["migrations"] ["seeds"] ["metadata"]
        "default").1.stat ["seeds", "default", "seed1.sql"] =
        some (FsNode.file [7]) := by
  decide

/-- C8 as amended: when no immediate child of the migrations root matches
the convention **and moreover the seeds root has no file child and no entry
lies under the two legacy metadata paths**, the reorganization succeeds and
only appends the two target directory entries, changing nothing else in the
project tree. -/
theorem C8_no_matches_only_creates_dirs (fs : Fs) (mroot sroot mdDir : Path)
    (td : String)
    (Hm : fs.stat mroot = some FsNode.dir)
    (Hs : fs.stat sroot = some FsNode.dir)
    (Hd1 : underDir mroot sroot = false)
    (Hd2 : underDir sroot mroot = false)
    (Hd3 : underDir mdDir mroot = false)
    (Hd4 : underDir mroot mdDir = false)
    (Hd5 : underDir mdDir sroot = false)
    (Hd6 : underDir sroot mdDir = false)
    (Hfm : ∀ q, underDir (mroot ++ [td]) q = true → fs.stat q = none)
    (Hfs2 : ∀ q, underDir (sroot ++ [td]) q = true → fs.stat q = none)
    (Hnomatch : ∀ n ∈ fs.childNames mroot, isHasuraCLIGeneratedMigration n = false)
    (Hnoseed : ∀ n ∈ fs.childNames sroot, fs.stat (sroot ++ [n]) = some FsNode.dir)
    (Hnoleg : ∀ e ∈ fs.entries,
      underDir (mdDir ++ ["functions.yaml"]) e.1 = false ∧
        underDir (mdDir ++ ["tables.yaml"]) e.1 = false) :
    (Reorganize noFsFaults fs mroot sroot mdDir td).2.2 = none ∧
      (Reorganize noFsFaults fs mroot sroot mdDir td).1 =
        ⟨fs.entries ++
          [(mroot ++ [td], FsNode.dir), (sroot ++ [td], FsNode.dir)]⟩ := by
  obtain ⟨ds2, ss, hg, hsd, hnodup, hmemiff, hseed, hm1, hm2, hCM1, hCM2, hCF1, hCF2⟩ :=
    reorgChain noFsFaults fs mroot sroot td rfl rfl rfl rfl (fun p => rfl)
      Hm Hs Hd1 Hd2 Hfm Hfs2
  have hds0 : ds2 = [] := by
    rcases hds2 : ds2 with - | ⟨x, xs⟩
    · rfl
    · exfalso
      rw [hds2] at hmemiff
      have hx := (hmemiff x).mp (List.mem_cons_self x xs)
      have h := Hnomatch x hx.1
      rw [hx.2] at h
      exact absurd h (by simp)
  subst hds0
  have hss0 : ss = [] := by
    rcases hss2 : ss with - | ⟨x, xs⟩
    · rfl
    · exfalso
      rw [hss2] at hseed
      obtain ⟨hxm, c, hc⟩ := hseed x (List.mem_cons_self x xs)
      rw [Hnoseed x hxm] at hc
      simp at hc
  subst hss0
  unfold Reorganize
  rw [hg, hsd]
  dsimp only
  rw [hm1]
  dsimp only
  rw [hm2]
  dsimp only
  have hCM0 : copyMigrations noFsFaults
      ⟨fs.entries ++ [(mroot ++ [td], FsNode.dir), (sroot ++ [td], FsNode.dir)]⟩
      ([] : List String) mroot (mroot ++ [td]) =
      (⟨fs.entries ++ [(mroot ++ [td], FsNode.dir), (sroot ++ [td], FsNode.dir)]⟩,
        [], none) := rfl
  rw [hCM0]
  dsimp only
  have hCF0 : copyFiles noFsFaults
      ⟨fs.entries ++ [(mroot ++ [td], FsNode.dir), (sroot ++ [td], FsNode.dir)]⟩
      ([] : List String) sroot (sroot ++ [td]) =
      (⟨fs.entries ++ [(mroot ++ [td], FsNode.dir), (sroot ++ [td], FsNode.dir)]⟩,
        [], none) := rfl
  rw [hCF0]
  dsimp only
  have hR0 : removeDirectories noFsFaults
      ⟨fs.entries ++ [(mroot ++ [td], FsNode.dir), (sroot ++ [td], FsNode.dir)]⟩
      mroot ([] : List String) =
      (⟨fs.entries ++ [(mroot ++ [td], FsNode.dir), (sroot ++ [td], FsNode.dir)]⟩,
        [], none) := rfl
  rw [hR0]
  dsimp only
  have hR1 : removeDirectories noFsFaults
      ⟨fs.entries ++ [(mroot ++ [td], FsNode.dir), (sroot ++ [td], FsNode.dir)]⟩
      sroot ([] : List String) =
      (⟨fs.entries ++ [(mroot ++ [td], FsNode.dir), (sroot ++ [td], FsNode.dir)]⟩,
        [], none) := rfl
  rw [hR1]
  dsimp only
  rw [removeDirectories_eq noFsFaults mdDir ["functions.yaml", "tables.yaml"] _
    (fun x _ => rfl)]
  dsimp only
  have hfilter : (fs.entries ++
      [(mroot ++ [td], FsNode.dir), (sroot ++ [td], FsNode.dir)]).filter
      (fun e => ["functions.yaml", "tables.yaml"].all
        (fun y => !(underDir (mdDir ++ [y]) e.1))) =
      fs.entries ++ [(mroot ++ [td], FsNode.dir), (sroot ++ [td], FsNode.dir)] := by
    rw [List.filter_eq_self]
    intro e he
    rw [List.all_eq_true]
    intro y hy
    rcases List.mem_append.mp he with he | he
    · have h2 := Hnoleg e he
      rcases List.mem_cons.mp hy with rfl | hy
      · rw [h2.1]
        rfl
      · rcases List.mem_singleton.mp hy with rfl
        rw [h2.2]
        rfl
    · have hmd : ∀ root : Path, underDir root mroot = false →
          underDir mroot root = false → underDir root sroot = false →
          underDir sroot root = false →
          (!(underDir (root ++ [y]) e.1)) = true := by
        intro root ha1 ha2 ha3 ha4
        rcases List.mem_cons.mp he with rfl | he
        · cases hu : underDir (root ++ [y]) (mroot ++ [td]) with
          | false => rfl
          | true =>
            exact absurd (underDir_of_underDir_concat hu)
              (fun h => not_underDir_both ha1 ha2 h
                (underDir_append mroot [td]))
        · rcases List.mem_singleton.mp he with rfl
          cases hu : underDir (root ++ [y]) (sroot ++ [td]) with
          | false => rfl
          | true =>
            exact absurd (underDir_of_underDir_concat hu)
              (fun h => not_underDir_both ha3 ha4 h
                (underDir_append sroot [td]))
      exact hmd mdDir Hd3 Hd4 Hd5 Hd6
  rw [hfilter]
  exact ⟨rfl, rfl⟩

/-- Witness for C8 (amended): on the concrete tree `exFs8b` (no matched
migration, no seed file, no legacy metadata entry) the reorganization only
appends the two target directory entries. -/
theorem C8_no_matches_only_creates_dirs_witness :
    (Reorganize noFsFaults exFs8b ["migrations"] ["seeds"] ["metadata"]
      "default").2.2 = none ∧
      (Reorganize noFsFaults exFs8b ["migrations"] ["seeds"] ["metadata"]
        "default").1 =
        ⟨exFs8b.entries ++
          [(["migrations"] ++ ["default"], FsNode.dir),
            (["seeds"] ++ ["default"], FsNode.dir)]⟩ :=
  C8_no_matches_only_creates_dirs exFs8b ["migrations"] ["seeds"] ["metadata"]
    "default" (by decide) (by decide) (by decide) (by decide) (by decide)
    (by decide) (by decide) (by decide)
    (stat_none_of_no_key_under (by decide))
    (stat_none_of_no_key_under (by decide))
    (by decide) (by decide) (by decide)

/-! ## Claim C10 -/

/-- On a sane project tree with no environment faults, the pipeline tail
runs to completion: no error, version marker at V3, catalog untouched, a
config-write event in the trace, and no state-copy event anywhere. -/
theorem restOfPipeline_success (opts : UpdateProjectV3Opts) (env : Env)
    (td : String) (w : World)
    (hwc : env.writeConfigFail = false)
    (hem : env.exportMetadataFail = false)
    (hwm : env.writeMetadataFail = false)
    (Hm : w.fs.stat opts.migrationsAbsDirectoryPath = some FsNode.dir)
    (Hs : w.fs.stat opts.seedsAbsDirectoryPath = some FsNode.dir)
    (Hd1 : underDir opts.migrationsAbsDirectoryPath
      opts.seedsAbsDirectoryPath = false)
    (Hd2 : underDir opts.seedsAbsDirectoryPath
      opts.migrationsAbsDirectoryPath = false)
    (Hfm : ∀ q, underDir (opts.migrationsAbsDirectoryPath ++ [td]) q = true →
      w.fs.stat q = none)
    (Hfs2 : ∀ q, underDir (opts.seedsAbsDirectoryPath ++ [td]) q = true →
      w.fs.stat q = none) :
    (restOfPipeline opts env noFsFaults td w).err = none ∧
      (restOfPipeline opts env noFsFaults td w).world.configVersion = V3 ∧
      (restOfPipeline opts env noFsFaults td w).world.catalog = w.catalog ∧
      Ev.wroteConfig V3 ∈ (restOfPipeline opts env noFsFaults td w).trace ∧
      (∀ s2 d2, Ev.copiedState s2 d2 ∉
        (restOfPipeline opts env noFsFaults td w).trace) := by
  obtain ⟨ds2, ss, hg, hsd, hnodup, hmemiff, hseed, hm1, hm2, hCM1, hCM2, hCF1, hCF2⟩ :=
    reorgChain noFsFaults w.fs opts.migrationsAbsDirectoryPath
      opts.seedsAbsDirectoryPath td rfl rfl rfl rfl (fun p => rfl)
      Hm Hs Hd1 Hd2 Hfm Hfs2
  have hCMt : copyMigrations noFsFaults
      ⟨w.fs.entries ++ [(opts.migrationsAbsDirectoryPath ++ [td], FsNode.dir),
        (opts.seedsAbsDirectoryPath ++ [td], FsNode.dir)]⟩
      ds2 opts.migrationsAbsDirectoryPath
      (opts.migrationsAbsDirectoryPath ++ [td]) =
      (⟨w.fs.entries ++ ([(opts.migrationsAbsDirectoryPath ++ [td], FsNode.dir),
          (opts.seedsAbsDirectoryPath ++ [td], FsNode.dir)] ++
        migDelta noFsFaults w.fs opts.migrationsAbsDirectoryPath
          (opts.migrationsAbsDirectoryPath ++ [td]) ds2)⟩,
       (copyMigrations noFsFaults
        ⟨w.fs.entries ++ [(opts.migrationsAbsDirectoryPath ++ [td], FsNode.dir),
          (opts.seedsAbsDirectoryPath ++ [td], FsNode.dir)]⟩
        ds2 opts.migrationsAbsDirectoryPath
        (opts.migrationsAbsDirectoryPath ++ [td])).2.1, none) := by
    exact Prod.ext hCM1 (Prod.ext rfl hCM2)
  have hCFt : copyFiles noFsFaults
      ⟨w.fs.entries ++ ([(opts.migrationsAbsDirectoryPath ++ [td], FsNode.dir),
          (opts.seedsAbsDirectoryPath ++ [td], FsNode.dir)] ++
        migDelta noFsFaults w.fs opts.migrationsAbsDirectoryPath
          (opts.migrationsAbsDirectoryPath ++ [td]) ds2)⟩ ss
      opts.seedsAbsDirectoryPath (opts.seedsAbsDirectoryPath ++ [td]) =
      (⟨w.fs.entries ++
          (([(opts.migrationsAbsDirectoryPath ++ [td], FsNode.dir),
            (opts.seedsAbsDirectoryPath ++ [td], FsNode.dir)] ++
          migDelta noFsFaults w.fs opts.migrationsAbsDirectoryPath
            (opts.migrationsAbsDirectoryPath ++ [td]) ds2) ++
          seedDelta w.fs opts.seedsAbsDirectoryPath
            (opts.seedsAbsDirectoryPath ++ [td]) ss)⟩,
       (copyFiles noFsFaults
        ⟨w.fs.entries ++ ([(opts.migrationsAbsDirectoryPath ++ [td], FsNode.dir),
            (opts.seedsAbsDirectoryPath ++ [td], FsNode.dir)] ++
          migDelta noFsFaults w.fs opts.migrationsAbsDirectoryPath
            (opts.migrationsAbsDirectoryPath ++ [td]) ds2)⟩ ss
        opts.seedsAbsDirectoryPath (opts.seedsAbsDirectoryPath ++ [td])).2.1,
       none) := by
    exact Prod.ext hCF1 (Prod.ext rfl hCF2)
  unfold restOfPipeline
  rw [hg, hsd]
  dsimp only
  rw [hm1]
  dsimp only
  rw [hm2]
  dsimp only
  rw [hCMt]
  dsimp only
  rw [hCFt]
  dsimp only
  rw [hwc]
  simp only [Bool.false_eq_true, if_false]
  rw [removeDirectories_eq noFsFaults opts.migrationsAbsDirectoryPath ds2 _
    (fun x _ => rfl)]
  dsimp only
  rw [removeDirectories_eq noFsFaults opts.seedsAbsDirectoryPath ss _
    (fun x _ => rfl)]
  dsimp only
  rw [removeDirectories_eq noFsFaults opts.metadataDir
    ["functions.yaml", "tables.yaml"] _ (fun x _ => rfl)]
  dsimp only
  rw [hem]
  simp only [Bool.false_eq_true, if_false]
  rw [hwm]
  simp only [Bool.false_eq_true, if_false]
  refine ⟨by trivial, by trivial, by trivial, ?_, ?_⟩
  · simp
  · intro s2 d2 hp
    simp only [List.mem_append] at hp
    rcases hp with (((((((hp | hp) | hp) | hp) | hp) | hp) | hp) | hp) | hp
    · simp at hp
    · simp at hp
    · rcases copyMigrations_trace_shape noFsFaults
        opts.migrationsAbsDirectoryPath (opts.migrationsAbsDirectoryPath ++ [td])
        ds2 _ _ hp with ⟨p1, q1, h⟩ | ⟨p1, h⟩ <;> exact absurd h (by simp)
    · rcases copyFiles_trace_shape noFsFaults
        opts.seedsAbsDirectoryPath (opts.seedsAbsDirectoryPath ++ [td])
        ss _ _ hp with ⟨p1, q1, h⟩ | ⟨p1, h⟩ <;> exact absurd h (by simp)
    · simp at hp
    · obtain ⟨x, -, h⟩ := List.mem_map.mp hp
      exact absurd h (by simp)
    · obtain ⟨x, -, h⟩ := List.mem_map.mp hp
      exact absurd h (by simp)
    · obtain ⟨x, -, h⟩ := List.mem_map.mp hp
      exact absurd h (by simp)
    · obtain ⟨x, -, h⟩ := List.mem_map.mp hp
      exact absurd h (by simp)

/-- C10: when the backend reports zero connected sources and an explicit
target database name is supplied, the `len(sources) >= 1` guard makes the
run skip both the state transplant and the move-state-only early return —
even with the move-state-only flag set true — and the pipeline proceeds to
reorganize directories and bump the config version: the run succeeds with
no state-copy event, a config-write event in the trace, the version marker
at V3, and the catalog untouched. -/
theorem C10_zero_sources_explicit_target (i : Input)
    (hmso : i.opts.moveStateOnly = true)
    (hsrc : i.env.sources = [])
    (htd : ¬ i.opts.targetDatabase.length = 0)
    (hmeta : i.env.hasMetadataV3 = true)
    (hic : i.env.inconsistentMetadataCheckFail = false)
    (hcons : i.env.metadataConsistent = true)
    (hforce : i.opts.force = true)
    (hgs : i.env.getSourcesFail = false)
    (hwc : i.env.writeConfigFail = false)
    (hem : i.env.exportMetadataFail = false)
    (hwm : i.env.writeMetadataFail = false)
    (hff : i.ff = noFsFaults)
    (Hm : i.world.fs.stat i.opts.migrationsAbsDirectoryPath = some FsNode.dir)
    (Hs : i.world.fs.stat i.opts.seedsAbsDirectoryPath = some FsNode.dir)
    (Hd1 : underDir i.opts.migrationsAbsDirectoryPath
      i.opts.seedsAbsDirectoryPath = false)
    (Hd2 : underDir i.opts.seedsAbsDirectoryPath
      i.opts.migrationsAbsDirectoryPath = false)
    (Hfm : ∀ q, underDir (i.opts.migrationsAbsDirectoryPath ++
      [i.opts.targetDatabase]) q = true → i.world.fs.stat q = none)
    (Hfs2 : ∀ q, underDir (i.opts.seedsAbsDirectoryPath ++
      [i.opts.targetDatabase]) q = true → i.world.fs.stat q = none) :
    (UpdateProjectV3 i).err = none ∧
      (∀ s2 d2, Ev.copiedState s2 d2 ∉ (UpdateProjectV3 i).trace) ∧
      Ev.wroteConfig V3 ∈ (UpdateProjectV3 i).trace ∧
      (UpdateProjectV3 i).world.configVersion = V3 ∧
      (UpdateProjectV3 i).world.catalog = i.world.catalog := by
  have hsel : selectTargetDatabase i.env i.opts.targetDatabase i.env.sources =
      ([], .ok i.opts.targetDatabase) := by
    unfold selectTargetDatabase
    rw [if_neg htd]
  obtain ⟨h1, h2, h3, h4, h5⟩ := restOfPipeline_success i.opts i.env
    i.opts.targetDatabase i.world hwc hem hwm Hm Hs Hd1 Hd2 Hfm Hfs2
  unfold UpdateProjectV3
  dsimp only
  rw [hmso, hmeta, hic, hcons, hforce, hgs]
  simp only [Bool.not_true, Bool.and_false, Bool.false_and, Bool.false_eq_true,
    if_false]
  rw [hsel]
  dsimp only
  rw [hsrc]
  rw [if_neg (by decide : ¬(([] : List String).length ≥ 1))]
  rw [hff]
  dsimp only
  simp only [List.nil_append]
  exact ⟨h1, h5, h4, h2, h3⟩

/-- Witness for C10: the concrete input with zero connected sources, an
explicit target name and the move-state-only flag set true. -/
theorem C10_zero_sources_explicit_target_witness :
    (UpdateProjectV3 exInputMsoNoSources).err = none ∧
      (∀ s2 d2, Ev.copiedState s2 d2 ∉
        (UpdateProjectV3 exInputMsoNoSources).trace) ∧
      Ev.wroteConfig V3 ∈ (UpdateProjectV3 exInputMsoNoSources).trace ∧
      (UpdateProjectV3 exInputMsoNoSources).world.configVersion = V3 ∧
      (UpdateProjectV3 exInputMsoNoSources).world.catalog =
        exInputMsoNoSources.world.catalog :=
  C10_zero_sources_explicit_target exInputMsoNoSources rfl rfl (by decide)
    rfl rfl rfl rfl rfl rfl rfl rfl rfl
    (by decide) (by decide) (by decide) (by decide)
    (stat_none_of_no_key_under (by decide))
    (stat_none_of_no_key_under (by decide))

end UpdateV3
